import Mathlib

/-!
Verification of the optiglot TypeScript harness
(src/harnesses/typescript/src: models.ts, the Module class, teleprompt.ts,
server.ts) against its natural-language specification.

Shallow embedding conventions:

* JavaScript exceptions are modelled by the type JsError; a field whose
  JavaScript truthiness matters (e.name, e.message, e.stack) is a String
  with the empty string standing for both undefined and the empty string,
  which are the falsy cases of the or-fallbacks in the source.
* A fallible computation returns Except JsError.
* The forward function of a module interacts with the ambient trace
  (AsyncLocalStorage in models.ts): it is modelled as a function that
  receives the trace accumulated so far and returns the final trace, in
  both the success and the failure case, mirroring the in-place pushes of
  the predictor shim.
* The cooperative worker pool of Module.evaluate is modelled as a
  small-step transition system: one step per atomic (await-free) block of
  the worker loop, with a nondeterministic scheduler that includes every
  interleaving the JavaScript event loop can produce.
* JavaScript arrays preallocated with new Array(n) are lists of options:
  a none entry is a hole that was never written.
-/

namespace Optiglot

/-- A thrown JavaScript value, as observed by the catch blocks of the
source: its name, message and stack properties (empty string = absent or
empty, the falsy cases), and its String(e) rendering. -/
structure JsError where
  name : String
  message : String
  stack : String
  str : String
deriving DecidableEq

/-- interface Prediction of models.ts: output / errorType / errorMessage /
errorTraceback, each nullable. -/
structure Prediction (Out : Type) where
  output : Option Out
  errorType : Option String
  errorMessage : Option String
  errorTraceback : Option String
deriving DecidableEq

/-- Result of Module.run: the prediction plus the trace accumulated during
the rollout.  Trace entries are kept abstract (type parameter TE): no
theorem below inspects their structure. -/
structure RunResult (Out TE : Type) where
  prediction : Prediction Out
  trace : List TE
deriving DecidableEq

/-- A forward function: from the rollout input and the trace accumulated so
far it produces an outcome (value or thrown error) together with the final
trace -- the trace survives a throw, as the entries were pushed in place.
A successful forward may resolve with null or undefined (an async function
with no return value, say): both are modelled as Except.ok none, since the
source assigns the resolved value to the nullable output field as is. -/
def ForwardFn (In Out TE : Type) : Type :=
  In → List TE → Except JsError (Option Out) × List TE

/-- The prediction built by the catch block of Module.run:
errorType = e.name or "Error", errorMessage = e.message or String(e),
errorTraceback = e.stack or null. -/
def mkFailure (Out : Type) (e : JsError) : Prediction Out :=
  { output := none
    errorType := some (if e.name = "" then "Error" else e.name)
    errorMessage := some (if e.message = "" then e.str else e.message)
    errorTraceback := if e.stack = "" then none else some e.stack }

/-- The error thrown by Module.forward when no forward function is set.
The stack string is a representative value: no theorem depends on it. -/
def forwardNotSetError : JsError :=
  { name := "Error"
    message := "Forward function is not set"
    stack := "Error: Forward function is not set"
    str := "Error: Forward function is not set" }

/-- Module.run of models.ts: start a fresh trace, run the forward function
under it, convert a success into a success prediction and a thrown error
into a failure prediction, and return the trace accumulated so far in both
cases.  A missing forward function throws inside the try block and is
caught like any other error. -/
def moduleRun (fwd : Option (ForwardFn In Out TE)) (inputs : In) :
    RunResult Out TE :=
  match fwd with
  | none => { prediction := mkFailure Out forwardNotSetError, trace := [] }
  | some f =>
    match f inputs [] with
    | (Except.ok out, tr) =>
      { prediction :=
          { output := out, errorType := none, errorMessage := none
            errorTraceback := none }
        trace := tr }
    | (Except.error e, tr) => { prediction := mkFailure Out e, trace := tr }

/-! ## Module state and candidate application

The Module object owns a record _predictors of named predictors (each with
an instructions string); the constructor also installs every predictor as a
dynamically named own property of the module object itself.  Both candidate
loops of the source use dynamic property access, so keys that match no
predictor can still hit something truthy:

* the evaluate loop (models.ts) reads this[name] and filters only
  functions, so "_predictors" hits the predictor record (an object) and
  "__proto__" hits Module.prototype (an object); every method of
  Module.prototype and Object.prototype is a function and is skipped, and
  anything else is undefined;
* the finalize loop (teleprompt.ts) reads student._predictors[name] with a
  bare truthiness guard and no function filter, so every member inherited
  from Object.prototype (constructor, toString, hasOwnProperty, ... and the
  __proto__ accessor) passes the guard, and the loop writes an instructions
  property onto that shared inherited object.

The model records these stray writes in the fields predsRecInstr
(instructions written onto the _predictors record), moduleProtoInstr
(instructions written onto Module.prototype) and objectProtoInstr
(instructions written onto the object reached through the record's
prototype chain under the given property name).

Standing model assumptions, outside which the dynamic writes of the source
clobber one another: no predictor is itself named "_predictors",
"instructions" or "__proto__".  A candidate entry named "instructions" can
additionally hit a previously injected string-valued property (after a
prior "_predictors" or "__proto__" write); there the source's guard is
truthy and the write targets a string primitive, which is silently
discarded under sloppy-mode compilation and throws a TypeError under
strict-mode compilation.  The model folds that corner into the skip branch
(the sloppy reading) and the characterization theorem excludes candidates
naming "instructions" altogether, so nothing is claimed about it. -/

/-- The mutable state of a Module object: the instructions of each named
predictor, plus the stray instructions properties dynamically added by
non-predictor candidate entries (see the section comment). -/
structure ModuleState where
  preds : List (String × String)
  predsRecInstr : Option String
  moduleProtoInstr : Option String
  objectProtoInstr : String → Option String

/-- Update the instructions of the predictor called name (in-place mutation
of the named entry). -/
def setInstr (ps : List (String × String)) (name prompt : String) :
    List (String × String) :=
  ps.map (fun p => if p.1 = name then (p.1, prompt) else p)

/-- Whether the module has a predictor called name. -/
def isPred (st : ModuleState) (name : String) : Bool :=
  st.preds.any (fun p => p.1 = name)

/-- Read the instructions of the predictor called name. -/
def lookupInstr (ps : List (String × String)) (name : String) :
    Option String :=
  (ps.find? (fun p => p.1 = name)).map Prod.snd

/-- The property names that resolve through a plain object's prototype
chain (Object.prototype) to a truthy value: the standard members, all
functions, and the __proto__ accessor, whose value is the prototype object
itself. -/
def objectProtoKeys : List String :=
  ["constructor", "toString", "toLocaleString", "valueOf", "hasOwnProperty",
   "isPrototypeOf", "propertyIsEnumerable", "__defineGetter__",
   "__defineSetter__", "__lookupGetter__", "__lookupSetter__", "__proto__"]

/-- One iteration of the candidate loop at the top of Module.evaluate:
if this[name] is truthy and not a function, set
this[name].instructions = prompt.  A predictor name hits the predictor
installed as an own property; "_predictors" hits the predictor record;
"__proto__" hits Module.prototype; methods (functions) and undefined are
skipped.  A key "instructions" after a prior "__proto__" write hits an
injected string primitive; the write onto it changes no modelled state
(see the section comment) and is folded into the skip branch. -/
def evalCandStep (st : ModuleState) (kv : String × String) : ModuleState :=
  if isPred st kv.1 then { st with preds := setInstr st.preds kv.1 kv.2 }
  else if kv.1 = "_predictors" then { st with predsRecInstr := some kv.2 }
  else if kv.1 = "__proto__" then { st with moduleProtoInstr := some kv.2 }
  else st

/-- One iteration of the candidate loop of the finalize path of
Teleprompt.compile: if student._predictors[name] is truthy, set its
instructions.  There is no function filter here, so a predictor name hits
the predictor, and any member inherited from Object.prototype passes the
guard and receives an instructions property.  A key "instructions" after a
prior "_predictors" write hits an injected string primitive; the write
onto it changes no modelled state (see the section comment) and is folded
into the skip branch. -/
def finalCandStep (st : ModuleState) (kv : String × String) : ModuleState :=
  if isPred st kv.1 then { st with preds := setInstr st.preds kv.1 kv.2 }
  else if kv.1 ∈ objectProtoKeys then
    { st with objectProtoInstr :=
        fun n => if n = kv.1 then some kv.2 else st.objectProtoInstr n }
  else st

/-- The candidate loop at the top of Module.evaluate. -/
def applyCandidateEvaluate (st : ModuleState)
    (cand : List (String × String)) : ModuleState :=
  cand.foldl evalCandStep st

/-- The candidate loop of the finalize path of Teleprompt.compile. -/
def applyCandidateFinalize (st : ModuleState)
    (cand : List (String × String)) : ModuleState :=
  cand.foldl finalCandStep st

/-! ## Metric values and normalization -/

/-- What the metric function may return: a bare number or a
score-with-optional-feedback record (ScoreWFeedback of models.ts).
JavaScript numbers carry no arithmetic here; Int suffices. -/
inductive MetricVal where
  | num (n : Int)
  | swf (score : Int) (feedback : Option String)
deriving DecidableEq

/-- A normalized score: the {score, feedback} pair stored in a
trajectory. -/
structure ScoreFB where
  score : Int
  feedback : String
deriving DecidableEq

/-- Normalization of a metric return value, as in the worker loop of
Module.evaluate and in the metric endpoint of server.ts: a bare number m
becomes {m, "This trajectory got a score of m."}; a missing feedback field
gets the same default. -/
def normalizeMetric : MetricVal → ScoreFB
  | MetricVal.num m =>
    { score := m
      feedback := "This trajectory got a score of " ++ toString m ++ "." }
  | MetricVal.swf sc fb =>
    { score := sc
      feedback :=
        fb.getD ("This trajectory got a score of " ++ toString sc ++ ".") }

/-! ## Teleprompt.compile: single-resolution semantics

Teleprompt.compile arms finalizeResolve (the resolver of
optimizationPromise, a one-shot promise), spawns the external process, and
races three signals on the returned promise: optimizationPromise.then
(which applies the best candidate to the student and resolves), a nonzero
process close code (reject), and a spawn error (reject).  A JavaScript
promise settles at most once: the first settle wins.  Teleprompt.finalize
calls finalizeResolve only when it is set; resolving an already-resolved
promise is a no-op.  The model linearizes the signals into an event list
and folds a compile state over it. -/

/-- The body of a finalize RPC call: the best candidate and opaque
results. -/
structure FinalizePayload (R : Type) where
  best : List (String × String)
  results : R
deriving DecidableEq

/-- The finalizeResolve / optimizationPromise pair owned by a Teleprompt
instance: armed is whether finalizeResolve is assigned, promise is the
payload the one-shot optimizationPromise was resolved with, if any. -/
structure TelepromptState (R : Type) where
  armed : Bool
  promise : Option (FinalizePayload R)
deriving DecidableEq

/-- Teleprompt.finalize of teleprompt.ts: if finalizeResolve is set, call
it; resolving twice keeps the first payload (one-shot promise). -/
def telepromptFinalize (st : TelepromptState R) (p : FinalizePayload R) :
    TelepromptState R :=
  if st.armed then
    match st.promise with
    | some _ => st
    | none => { st with promise := some p }
  else st

/-- The signals that can settle a compile call, in arrival order. -/
inductive CompileEvent (R : Type) where
  | finalizeCall (p : FinalizePayload R)
  | processClose (code : Int)
  | spawnError (msg : String)
deriving DecidableEq

/-- The settlement state of the promise returned by compile. -/
inductive Outcome where
  | pending
  | resolvedWith (student : ModuleState)
  | rejectedWith (msg : String)

/-- A promise settles at most once: the first resolution or rejection
wins. -/
def settleOutcome : Outcome → Outcome → Outcome
  | Outcome.pending, o => o
  | o, _ => o

/-- The rejection message built by the close handler of compile. -/
def procFailMsg (code : Int) : String :=
  "Optimization process failed with code " ++ toString code

/-- The state of one in-flight compile call: the teleprompt one-shot
signal, the student module (mutated by the then-callback of
optimizationPromise), and the settlement of the returned promise. -/
structure CompileState (R : Type) where
  tp : TelepromptState R
  student : ModuleState
  outcome : Outcome

/-- One signal arriving at an in-flight compile call.  A finalize call
resolves the one-shot optimizationPromise; on its first resolution the
then-callback applies the best candidate to the student and resolves the
outer promise.  A nonzero close code rejects; close code zero does
nothing.  A spawn error rejects.  All settlements go through
settleOutcome: the first one wins. -/
def compileStep (cs : CompileState R) : CompileEvent R → CompileState R
  | CompileEvent.finalizeCall p =>
    if cs.tp.armed then
      match cs.tp.promise with
      | some _ => cs
      | none =>
        let m := applyCandidateFinalize cs.student p.best
        { tp := { cs.tp with promise := some p }
          student := m
          outcome := settleOutcome cs.outcome (Outcome.resolvedWith m) }
    else cs
  | CompileEvent.processClose code =>
    if code = 0 then cs
    else
      { cs with
          outcome := settleOutcome cs.outcome
            (Outcome.rejectedWith (procFailMsg code)) }
  | CompileEvent.spawnError msg =>
    { cs with
        outcome := settleOutcome cs.outcome (Outcome.rejectedWith msg) }

/-- The state of a compile call right after it armed finalizeResolve and
spawned the process, before any signal arrived. -/
def compileInit (m0 : ModuleState) : CompileState R :=
  { tp := { armed := true, promise := none }
    student := m0
    outcome := Outcome.pending }

/-- Run a compile call against a linearized list of arriving signals. -/
def compileRun (m0 : ModuleState) (es : List (CompileEvent R)) :
    CompileState R :=
  es.foldl compileStep (compileInit m0)

/-- Whether an event settles a pending compile promise: any finalize call,
any nonzero close code, any spawn error. -/
def isDecider : CompileEvent R → Bool
  | CompileEvent.finalizeCall _ => true
  | CompileEvent.processClose code => decide (code ≠ 0)
  | CompileEvent.spawnError _ => true

/-- The outcome dictated by the first deciding event. -/
def outcomeOfDecider (m0 : ModuleState) : Option (CompileEvent R) → Outcome
  | none => Outcome.pending
  | some (CompileEvent.finalizeCall p) =>
    Outcome.resolvedWith (applyCandidateFinalize m0 p.best)
  | some (CompileEvent.processClose code) =>
    Outcome.rejectedWith (procFailMsg code)
  | some (CompileEvent.spawnError msg) => Outcome.rejectedWith msg

theorem settleOutcome_of_ne_pending {o o' : Outcome} (h : o ≠ Outcome.pending) :
    settleOutcome o o' = o := by
  cases o with
  | pending => exact absurd rfl h
  | resolvedWith m => rfl
  | rejectedWith e => rfl

/-- A settled outcome never changes again, whatever signals follow. -/
theorem outcome_frozen (es : List (CompileEvent R)) (cs : CompileState R)
    (h : cs.outcome ≠ Outcome.pending) :
    (es.foldl compileStep cs).outcome = cs.outcome := by
  induction es generalizing cs with
  | nil => rfl
  | cons e es ih =>
    have hstep : (compileStep cs e).outcome = cs.outcome := by
      cases e with
      | finalizeCall p =>
        simp only [compileStep]
        by_cases ha : cs.tp.armed
        · simp only [ha, if_true]
          cases hp : cs.tp.promise with
          | some q => rfl
          | none => simpa using settleOutcome_of_ne_pending h
        · simp [ha]
      | processClose code =>
        simp only [compileStep]
        by_cases hc : code = 0
        · simp [hc]
        · simpa [hc] using settleOutcome_of_ne_pending h
      | spawnError msg =>
        simpa [compileStep] using settleOutcome_of_ne_pending h
    rw [List.foldl_cons, ih (compileStep cs e) (by rw [hstep]; exact h),
      hstep]

/-- After a settled outcome, student and promise are also frozen once the
promise is resolved; only what is needed: if the promise is already
resolved, any further event leaves the whole state unchanged except
through close events, which cannot fire the then-callback again. -/
theorem compile_char_aux (es : List (CompileEvent R)) (m : ModuleState)
    (tp : TelepromptState R) (htp : tp.armed = true)
    (hpr : tp.promise = none) :
    (es.foldl compileStep
        { tp := tp, student := m, outcome := Outcome.pending }).outcome =
      outcomeOfDecider m (es.find? isDecider) := by
  induction es generalizing m tp with
  | nil => rfl
  | cons e es ih =>
    cases e with
    | finalizeCall p =>
      have hstep :
          compileStep { tp := tp, student := m, outcome := Outcome.pending }
              (CompileEvent.finalizeCall p) =
            { tp := { tp with promise := some p }
              student := applyCandidateFinalize m p.best
              outcome :=
                Outcome.resolvedWith (applyCandidateFinalize m p.best) } := by
        simp [compileStep, htp, hpr, settleOutcome]
      rw [List.foldl_cons, hstep, outcome_frozen _ _ (by simp)]
      simp [List.find?, isDecider, outcomeOfDecider]
    | processClose code =>
      by_cases hc : code = 0
      · have hstep :
            compileStep { tp := tp, student := m, outcome := Outcome.pending }
                (CompileEvent.processClose code) =
              { tp := tp, student := m, outcome := Outcome.pending } := by
          simp [compileStep, hc]
        rw [List.foldl_cons, hstep, ih m tp htp hpr]
        simp [List.find?, isDecider, hc]
      · have hstep :
            compileStep { tp := tp, student := m, outcome := Outcome.pending }
                (CompileEvent.processClose code) =
              { tp := tp, student := m
                outcome := Outcome.rejectedWith (procFailMsg code) } := by
          simp [compileStep, hc, settleOutcome]
        rw [List.foldl_cons, hstep, outcome_frozen _ _ (by simp)]
        simp [List.find?, isDecider, hc, outcomeOfDecider]
    | spawnError msg =>
      have hstep :
          compileStep { tp := tp, student := m, outcome := Outcome.pending }
              (CompileEvent.spawnError msg) =
            { tp := tp, student := m
              outcome := Outcome.rejectedWith msg } := by
        simp [compileStep, settleOutcome]
      rw [List.foldl_cons, hstep, outcome_frozen _ _ (by simp)]
      simp [List.find?, isDecider, outcomeOfDecider]

/-- The armed flag is never modified by any event. -/
theorem compile_armed_invariant (es : List (CompileEvent R))
    (cs : CompileState R) :
    (es.foldl compileStep cs).tp.armed = cs.tp.armed := by
  induction es generalizing cs with
  | nil => rfl
  | cons e es ih =>
    rw [List.foldl_cons, ih]
    cases e with
    | finalizeCall p =>
      simp only [compileStep]
      by_cases ha : cs.tp.armed
      · simp only [ha, if_true]
        cases cs.tp.promise <;> simp [ha]
      · simp [ha]
    | processClose code =>
      by_cases hc : code = 0 <;> simp [compileStep, hc]
    | spawnError msg => simp [compileStep]

/-- Once the one-shot promise is resolved it stays resolved. -/
theorem compile_promise_stays (es : List (CompileEvent R))
    (cs : CompileState R) (h : cs.tp.promise.isSome) :
    (es.foldl compileStep cs).tp.promise.isSome := by
  induction es generalizing cs with
  | nil => exact h
  | cons e es ih =>
    rw [List.foldl_cons]
    refine ih _ ?_
    cases e with
    | finalizeCall p =>
      simp only [compileStep]
      by_cases ha : cs.tp.armed
      · simp only [ha, if_true]
        cases hp : cs.tp.promise with
        | some q => simp [hp]
        | none => simp [hp] at h
      · simpa [ha] using h
    | processClose code =>
      by_cases hc : code = 0 <;> simpa [compileStep, hc] using h
    | spawnError msg => simpa [compileStep] using h

/-- A finalize event is the identity on the whole compile state as soon as
the one-shot promise is already resolved. -/
theorem finalize_noop_of_resolved (cs : CompileState R)
    (p : FinalizePayload R) (h : cs.tp.promise.isSome) :
    compileStep cs (CompileEvent.finalizeCall p) = cs := by
  simp only [compileStep]
  by_cases ha : cs.tp.armed
  · simp only [ha, if_true]
    cases hp : cs.tp.promise with
    | some q => rfl
    | none => simp [hp] at h
  · simp [ha]

/-! ## Module.evaluate: the bounded-concurrency worker pool

Module.evaluate applies the candidate, preallocates outputs / scores /
trajectories arrays of length batch.length, and launches numWorkers async
workers over a shared cursor:

  while (currentIndex < batch.length) {
    const index = currentIndex++;          // atomic with the test: no await
    ... await this.run(inputs) ...         // suspension point
    ... await metric(...)  ...             // suspension point
    outputs[index] = ...; scores[index] = ...;  // synchronous writes
  }

The model gives each worker a phase and lets a nondeterministic scheduler
interleave the atomic blocks; this includes every interleaving the
single-threaded event loop can produce (and more, which is sound for the
universally quantified claims).  this.run and metric are modelled as pure
functions, so a rollout depends only on its batch index. -/

/-- The three-argument metric call made by the worker loop of
Module.evaluate. -/
def MetricFn (Ex Out TE : Type) : Type :=
  Ex → Prediction Out → List TE → Except JsError MetricVal

/-- The environment of one evaluate call, fixed before the workers start:
the batch, the capture_traces flag, the rollout function (candidate already
applied), and the metric. -/
structure EvalEnv (Ex Out TE : Type) where
  batch : List Ex
  capture : Bool
  rollout : Ex → RunResult Out TE
  metric : MetricFn Ex Out TE

variable {Ex Out TE : Type} [Inhabited Ex]

/-- The example at batch index i (batch[index]! in the source). -/
def exAt (env : EvalEnv Ex Out TE) (i : Nat) : Ex := env.batch[i]!

/-- The rollout result for batch index i. -/
def runAt (env : EvalEnv Ex Out TE) (i : Nat) : RunResult Out TE :=
  env.rollout (exAt env i)

/-- The metric call for batch index i:
metric(example, runResult.prediction, runResult.trace). -/
def metricOutcome (env : EvalEnv Ex Out TE) (i : Nat) :
    Except JsError MetricVal :=
  env.metric (exAt env i) (runAt env i).prediction (runAt env i).trace

/-- The normalized metric result for batch index i: a throwing metric is
caught and recorded as score 0 with the fixed feedback string. -/
def scoreFBAt (env : EvalEnv Ex Out TE) (i : Nat) : ScoreFB :=
  match metricOutcome env i with
  | Except.ok v => normalizeMetric v
  | Except.error _ => { score := 0, feedback := "Metric evaluation failed." }

/-- The prediction written to outputs[i]. -/
def outAt (env : EvalEnv Ex Out TE) (i : Nat) : Prediction Out :=
  (runAt env i).prediction

/-- The number written to scores[i]. -/
def scoreAt (env : EvalEnv Ex Out TE) (i : Nat) : Int := (scoreFBAt env i).score

/-- interface Trace of models.ts: the trajectory record written for index i
when capture_traces is true.  The field ex models the field called example
in the source (a reserved word in Lean). -/
structure TraceRec (Ex Out TE : Type) where
  example_ind : Nat
  ex : Ex
  prediction : Prediction Out
  trace : List TE
  score : ScoreFB
deriving DecidableEq

/-- The trajectory written to trajectories[i]. -/
def trajAt (env : EvalEnv Ex Out TE) (i : Nat) : TraceRec Ex Out TE :=
  { example_ind := i
    ex := exAt env i
    prediction := outAt env i
    trace := (runAt env i).trace
    score := scoreFBAt env i }

/-- Where a logical worker stands between two suspension points. -/
inductive Phase where
  | loopHead
  | awaitRun (idx : Nat)
  | awaitMetric (idx : Nat)
  | finished
deriving DecidableEq

/-- The batch index a worker currently holds a claim on, if any. -/
def Phase.holdsIdx : Phase → Option Nat
  | Phase.awaitRun i => some i
  | Phase.awaitMetric i => some i
  | _ => none

/-- The shared state of one evaluate call while the pool runs.  claims is a
ghost log of (worker, index) claim events, used only to state the
exactly-once claiming property. -/
structure EvalState (Ex Out TE : Type) where
  cursor : Nat
  workers : List Phase
  outputs : List (Option (Prediction Out))
  scores : List (Option Int)
  trajs : List (Option (TraceRec Ex Out TE))
  claims : List (Nat × Nat)

/-- The state right after the preallocation: cursor 0, every worker at the
loop head, arrays of length batch.length full of holes. -/
def initState (env : EvalEnv Ex Out TE) (numWorkers : Nat) :
    EvalState Ex Out TE :=
  { cursor := 0
    workers := List.replicate numWorkers Phase.loopHead
    outputs := List.replicate env.batch.length none
    scores := List.replicate env.batch.length none
    trajs := List.replicate env.batch.length none
    claims := [] }

/-- One atomic block of one worker.  claim: the loop test succeeds and the
worker takes the next index (test and increment are await-free, hence one
step).  exit: the loop test fails and the worker returns.  runDone: the
awaited this.run resolves.  metricDone: the awaited metric resolves
(normalization, catch and the positional writes are await-free, hence one
step with the writes). -/
inductive Step (env : EvalEnv Ex Out TE) :
    EvalState Ex Out TE → EvalState Ex Out TE → Prop where
  | claim (s : EvalState Ex Out TE) (w : Nat)
      (hw : s.workers[w]? = some Phase.loopHead)
      (hlt : s.cursor < env.batch.length) :
      Step env s
        { s with
            cursor := s.cursor + 1
            workers := s.workers.set w (Phase.awaitRun s.cursor)
            claims := s.claims ++ [(w, s.cursor)] }
  | exit (s : EvalState Ex Out TE) (w : Nat)
      (hw : s.workers[w]? = some Phase.loopHead)
      (hge : env.batch.length ≤ s.cursor) :
      Step env s { s with workers := s.workers.set w Phase.finished }
  | runDone (s : EvalState Ex Out TE) (w i : Nat)
      (hw : s.workers[w]? = some (Phase.awaitRun i)) :
      Step env s { s with workers := s.workers.set w (Phase.awaitMetric i) }
  | metricDone (s : EvalState Ex Out TE) (w i : Nat)
      (hw : s.workers[w]? = some (Phase.awaitMetric i)) :
      Step env s
        { s with
            workers := s.workers.set w Phase.loopHead
            outputs := s.outputs.set i (some (outAt env i))
            scores := s.scores.set i (some (scoreAt env i))
            trajs :=
              if env.capture then s.trajs.set i (some (trajAt env i))
              else s.trajs }

/-- States an evaluate call with numWorkers workers can be in. -/
def Reachable (env : EvalEnv Ex Out TE) (numWorkers : Nat)
    (s : EvalState Ex Out TE) : Prop :=
  Relation.ReflTransGen (Step env) (initState env numWorkers) s

/-- Promise.all(workers) has resolved: every worker returned. -/
def AllDone (numWorkers : Nat) (s : EvalState Ex Out TE) : Prop :=
  ∀ w, w < numWorkers → s.workers[w]? = some Phase.finished

/-- interface EvaluationBatch of models.ts, with array holes kept
explicit. -/
structure EvaluationBatch (Ex Out TE : Type) where
  outputs : List (Option (Prediction Out))
  scores : List (Option Int)
  trajectories : List (Option (TraceRec Ex Out TE))

/-- The value returned by Module.evaluate from a completed pool state:
trajectories is the preallocated array when capture_traces is true and the
empty array otherwise. -/
def mkResult (env : EvalEnv Ex Out TE) (s : EvalState Ex Out TE) :
    EvaluationBatch Ex Out TE :=
  { outputs := s.outputs
    scores := s.scores
    trajectories := if env.capture then s.trajs else [] }

/-- A module object: its mutable state plus its forward behavior, which
reads the predictor instructions at call time. -/
structure ModuleDef (Ex Out TE : Type) where
  state : ModuleState
  forward : Option (List (String × String) → ForwardFn Ex Out TE)

/-- The environment Module.evaluate runs its pool in: the candidate is
applied to the module first (synchronously and completely, there is no
await in the candidate loop), then every rollout derives its inputs via
getInputs if present and calls this.run against the updated predictor
state. -/
def evaluateEnv (M : ModuleDef Ex Out TE) (batch : List Ex)
    (candidate : List (String × String)) (capture : Bool)
    (metric : MetricFn Ex Out TE) (getInputs : Option (Ex → Ex)) :
    EvalEnv Ex Out TE :=
  let st := applyCandidateEvaluate M.state candidate
  { batch := batch
    capture := capture
    rollout := fun ex =>
      moduleRun (M.forward.map (fun f => f st.preds))
        (match getInputs with
         | some g => g ex
         | none => ex)
    metric := metric }

/-! ## The pool invariant -/

/-- Worker w of the pool ws currently holds a claim on batch index i. -/
def HoldsW (ws : List Phase) (w i : Nat) : Prop :=
  ∃ p, ws[w]? = some p ∧ p.holdsIdx = some i

/-- Worker w of state s currently holds a claim on batch index i. -/
abbrev HoldsAt (s : EvalState Ex Out TE) (w i : Nat) : Prop :=
  HoldsW s.workers w i

theorem holdsW_set {ws : List Phase} {w : Nat} (hw : w < ws.length)
    (p : Phase) (w' i : Nat) :
    HoldsW (ws.set w p) w' i ↔
      (w' = w ∧ p.holdsIdx = some i) ∨ (w' ≠ w ∧ HoldsW ws w' i) := by
  unfold HoldsW
  by_cases h : w' = w
  · subst h
    rw [List.getElem?_set_eq_of_lt _ hw]
    constructor
    · rintro ⟨q, hq, hqi⟩
      exact Or.inl ⟨rfl, (Option.some.inj hq) ▸ hqi⟩
    · rintro (⟨_, hpi⟩ | ⟨hne, _⟩)
      · exact ⟨p, rfl, hpi⟩
      · exact absurd rfl hne
  · rw [List.getElem?_set_ne (fun he => h he.symm)]
    constructor
    · intro hh
      exact Or.inr ⟨h, hh⟩
    · rintro (⟨he, _⟩ | ⟨_, hh⟩)
      · exact absurd he h
      · exact hh

/-- The inductive invariant of the worker pool, for batch length n =
env.batch.length and pool size C:
array lengths are fixed at n; the cursor never passes n; the ghost claim
log holds exactly the indices below the cursor, in order; a worker only
returns once the cursor is exhausted; a held index is below the cursor,
held by no other worker, and still unwritten; a written slot holds the
value determined by its index; an unwritten slot below the cursor is held
by some worker; slots at or above the cursor are unwritten; the scores and
trajectories arrays are written in lockstep with outputs. -/
structure Inv (env : EvalEnv Ex Out TE) (C : Nat)
    (s : EvalState Ex Out TE) : Prop where
  wlen : s.workers.length = C
  olen : s.outputs.length = env.batch.length
  slen : s.scores.length = env.batch.length
  tlen : s.trajs.length = env.batch.length
  cle : s.cursor ≤ env.batch.length
  claimsEq : s.claims.map Prod.snd = List.range s.cursor
  finCur : (∃ w : Nat, s.workers[w]? = some Phase.finished) →
    env.batch.length ≤ s.cursor
  holdsLt : ∀ w i, HoldsAt s w i → i < s.cursor
  uniq : ∀ w w' i, HoldsAt s w i → HoldsAt s w' i → w = w'
  holdsUnwritten : ∀ w i, HoldsAt s w i → s.outputs[i]? = some none
  writtenVal : ∀ i v, s.outputs[i]? = some (some v) → v = outAt env i
  unwrittenHolder : ∀ i, i < s.cursor → s.outputs[i]? = some none →
    ∃ w, HoldsAt s w i
  highUnwritten : ∀ i, s.cursor ≤ i → i < env.batch.length →
    s.outputs[i]? = some none
  scoresSync : ∀ i, s.scores[i]? =
    (s.outputs[i]?).map (Option.map (fun _ => scoreAt env i))
  trajsSync : ∀ i, s.trajs[i]? =
    (s.outputs[i]?).map (fun (o : Option (Prediction Out)) =>
      o.bind (fun _ => if env.capture then some (trajAt env i) else none))

theorem inv_init (env : EvalEnv Ex Out TE) (C : Nat) :
    Inv env C (initState env C) := by
  have hrep : ∀ (k : Nat) (i : Nat),
      (List.replicate k (none : Option (Prediction Out)))[i]? =
        if i < k then some none else none := fun k i =>
    List.getElem?_replicate
  refine
    { wlen := List.length_replicate _ _
      olen := List.length_replicate _ _
      slen := List.length_replicate _ _
      tlen := List.length_replicate _ _
      cle := Nat.zero_le _
      claimsEq := rfl
      finCur := ?_
      holdsLt := ?_
      uniq := ?_
      holdsUnwritten := ?_
      writtenVal := ?_
      unwrittenHolder := ?_
      highUnwritten := ?_
      scoresSync := ?_
      trajsSync := ?_ }
  · rintro ⟨w, hw⟩
    rw [initState, List.getElem?_replicate] at hw
    split at hw
    · exact absurd (Option.some.inj hw) (by simp)
    · exact absurd hw (by simp)
  · rintro w i ⟨p, hp, hpi⟩
    rw [initState] at hp
    simp only [List.getElem?_replicate] at hp
    split at hp
    · rw [← Option.some.inj hp] at hpi
      simp [Phase.holdsIdx] at hpi
    · exact absurd hp (by simp)
  · rintro w w' i ⟨p, hp, hpi⟩ _
    rw [initState] at hp
    simp only [List.getElem?_replicate] at hp
    split at hp
    · rw [← Option.some.inj hp] at hpi
      simp [Phase.holdsIdx] at hpi
    · exact absurd hp (by simp)
  · rintro w i ⟨p, hp, hpi⟩
    rw [initState] at hp
    simp only [List.getElem?_replicate] at hp
    split at hp
    · rw [← Option.some.inj hp] at hpi
      simp [Phase.holdsIdx] at hpi
    · exact absurd hp (by simp)
  · intro i v hv
    rw [initState] at hv
    simp only [List.getElem?_replicate] at hv
    split at hv
    · exact absurd (Option.some.inj hv) (by simp)
    · exact absurd hv (by simp)
  · intro i hi _
    exact absurd hi (by simp [initState])
  · intro i _ hi
    simp [initState, List.getElem?_replicate, hi]
  · intro i
    simp only [initState, List.getElem?_replicate]
    by_cases hi : i < env.batch.length <;> simp [hi]
  · intro i
    simp only [initState, List.getElem?_replicate]
    by_cases hi : i < env.batch.length <;> simp [hi]

theorem lt_length_of_some {α : Type _} {l : List α} {i : Nat} {a : α}
    (h : l[i]? = some a) : i < l.length :=
  (List.getElem?_eq_some.mp h).1

theorem holds_of_phase {ws : List Phase} {w : Nat} {p : Phase} {i : Nat}
    (hw : ws[w]? = some p) (hh : HoldsW ws w i) : p.holdsIdx = some i := by
  obtain ⟨q, hq, hqi⟩ := hh
  rw [hw] at hq
  obtain rfl := Option.some.inj hq
  exact hqi

theorem loopHead_holds_nothing {ws : List Phase} {w : Nat} {i : Nat}
    (hw : ws[w]? = some Phase.loopHead) : ¬ HoldsW ws w i := by
  intro hh
  have := holds_of_phase hw hh
  simp [Phase.holdsIdx] at this

/-- Preservation of the invariant under a claim step. -/
theorem inv_claim {env : EvalEnv Ex Out TE} {C : Nat}
    {s : EvalState Ex Out TE} {w : Nat} (hinv : Inv env C s)
    (hw : s.workers[w]? = some Phase.loopHead)
    (hlt : s.cursor < env.batch.length) :
    Inv env C
      { s with
          cursor := s.cursor + 1
          workers := s.workers.set w (Phase.awaitRun s.cursor)
          claims := s.claims ++ [(w, s.cursor)] } := by
  have hwlen : w < s.workers.length := lt_length_of_some hw
  have hto : ∀ w' i : Nat,
      HoldsW (s.workers.set w (Phase.awaitRun s.cursor)) w' i →
      (w' = w ∧ i = s.cursor) ∨ (w' ≠ w ∧ HoldsAt s w' i) := by
    intro w' i hh
    rcases (holdsW_set hwlen _ w' i).mp hh with ⟨he, hpi⟩ | ⟨hne, hh'⟩
    · simp only [Phase.holdsIdx] at hpi
      exact Or.inl ⟨he, (Option.some.inj hpi).symm⟩
    · exact Or.inr ⟨hne, hh'⟩
  have hback : ∀ w' i : Nat, w' ≠ w → HoldsAt s w' i →
      HoldsW (s.workers.set w (Phase.awaitRun s.cursor)) w' i := by
    intro w' i hne hh
    exact (holdsW_set hwlen _ w' i).mpr (Or.inr ⟨hne, hh⟩)
  have hnew : HoldsW (s.workers.set w (Phase.awaitRun s.cursor)) w s.cursor :=
    (holdsW_set hwlen _ w s.cursor).mpr (Or.inl ⟨rfl, rfl⟩)
  refine
    { wlen := ?_
      olen := hinv.olen
      slen := hinv.slen
      tlen := hinv.tlen
      cle := hlt
      claimsEq := ?_
      finCur := ?_
      holdsLt := ?_
      uniq := ?_
      holdsUnwritten := ?_
      writtenVal := hinv.writtenVal
      unwrittenHolder := ?_
      highUnwritten := ?_
      scoresSync := hinv.scoresSync
      trajsSync := hinv.trajsSync }
  · show (s.workers.set w (Phase.awaitRun s.cursor)).length = C
    rw [List.length_set]
    exact hinv.wlen
  · show (s.claims ++ [(w, s.cursor)]).map Prod.snd = List.range (s.cursor + 1)
    rw [List.map_append, hinv.claimsEq, List.range_succ]
    rfl
  · rintro ⟨w', hw'⟩
    refine Nat.le_succ_of_le ?_
    by_cases he : w' = w
    · subst he
      rw [List.getElem?_set_eq_of_lt _ hwlen] at hw'
      exact absurd (Option.some.inj hw') (by simp)
    · rw [List.getElem?_set_ne (fun h => he h.symm)] at hw'
      exact hinv.finCur ⟨w', hw'⟩
  · intro w' i hh
    rcases hto w' i hh with ⟨_, rfl⟩ | ⟨_, hh'⟩
    · exact Nat.lt_succ_self _
    · exact Nat.lt_succ_of_lt (hinv.holdsLt w' i hh')
  · intro w' w'' i hh' hh''
    rcases hto w' i hh' with ⟨he', rfl⟩ | ⟨hne', hold'⟩
    · rcases hto w'' s.cursor hh'' with ⟨he'', _⟩ | ⟨_, hold''⟩
      · rw [he', he'']
      · exact absurd (hinv.holdsLt w'' s.cursor hold'') (Nat.lt_irrefl _)
    · rcases hto w'' i hh'' with ⟨_, rfl⟩ | ⟨_, hold''⟩
      · exact absurd (hinv.holdsLt w' s.cursor hold') (Nat.lt_irrefl _)
      · exact hinv.uniq w' w'' i hold' hold''
  · intro w' i hh
    rcases hto w' i hh with ⟨_, rfl⟩ | ⟨_, hh'⟩
    · exact hinv.highUnwritten s.cursor (Nat.le_refl _) hlt
    · exact hinv.holdsUnwritten w' i hh'
  · intro i hi hun
    rcases Nat.lt_succ_iff_lt_or_eq.mp hi with hi' | rfl
    · obtain ⟨w', hold'⟩ := hinv.unwrittenHolder i hi' hun
      have hne : w' ≠ w := by
        rintro rfl
        exact loopHead_holds_nothing hw hold'
      exact ⟨w', hback w' i hne hold'⟩
    · exact ⟨w, hnew⟩
  · intro i hi hilen
    exact hinv.highUnwritten i (Nat.le_of_succ_le hi) hilen

/-- Preservation of the invariant under a worker returning. -/
theorem inv_exit {env : EvalEnv Ex Out TE} {C : Nat}
    {s : EvalState Ex Out TE} {w : Nat} (hinv : Inv env C s)
    (hw : s.workers[w]? = some Phase.loopHead)
    (hge : env.batch.length ≤ s.cursor) :
    Inv env C { s with workers := s.workers.set w Phase.finished } := by
  have hwlen : w < s.workers.length := lt_length_of_some hw
  have hto : ∀ w' i : Nat, HoldsW (s.workers.set w Phase.finished) w' i →
      HoldsAt s w' i := by
    intro w' i hh
    rcases (holdsW_set hwlen _ w' i).mp hh with ⟨_, hpi⟩ | ⟨_, hh'⟩
    · simp [Phase.holdsIdx] at hpi
    · exact hh'
  have hback : ∀ w' i : Nat, HoldsAt s w' i →
      HoldsW (s.workers.set w Phase.finished) w' i := by
    intro w' i hh
    have hne : w' ≠ w := by
      rintro rfl
      exact loopHead_holds_nothing hw hh
    exact (holdsW_set hwlen _ w' i).mpr (Or.inr ⟨hne, hh⟩)
  refine
    { wlen := ?_
      olen := hinv.olen
      slen := hinv.slen
      tlen := hinv.tlen
      cle := hinv.cle
      claimsEq := hinv.claimsEq
      finCur := fun _ => hge
      holdsLt := fun w' i hh => hinv.holdsLt w' i (hto w' i hh)
      uniq := fun w' w'' i hh' hh'' =>
        hinv.uniq w' w'' i (hto w' i hh') (hto w'' i hh'')
      holdsUnwritten := fun w' i hh => hinv.holdsUnwritten w' i (hto w' i hh)
      writtenVal := hinv.writtenVal
      unwrittenHolder := ?_
      highUnwritten := hinv.highUnwritten
      scoresSync := hinv.scoresSync
      trajsSync := hinv.trajsSync }
  · show (s.workers.set w Phase.finished).length = C
    rw [List.length_set]
    exact hinv.wlen
  · intro i hi hun
    obtain ⟨w', hold'⟩ := hinv.unwrittenHolder i hi hun
    exact ⟨w', hback w' i hold'⟩

/-- Preservation of the invariant under a rollout resolving: the worker
moves from awaiting this.run to awaiting the metric, still holding the
same index. -/
theorem inv_runDone {env : EvalEnv Ex Out TE} {C : Nat}
    {s : EvalState Ex Out TE} {w i : Nat} (hinv : Inv env C s)
    (hw : s.workers[w]? = some (Phase.awaitRun i)) :
    Inv env C { s with workers := s.workers.set w (Phase.awaitMetric i) } := by
  have hwlen : w < s.workers.length := lt_length_of_some hw
  have hwholds : HoldsAt s w i := ⟨Phase.awaitRun i, hw, rfl⟩
  have hto : ∀ w' j : Nat, HoldsW (s.workers.set w (Phase.awaitMetric i)) w' j →
      HoldsAt s w' j := by
    intro w' j hh
    rcases (holdsW_set hwlen _ w' j).mp hh with ⟨rfl, hpi⟩ | ⟨_, hh'⟩
    · simp only [Phase.holdsIdx] at hpi
      obtain rfl := Option.some.inj hpi
      exact hwholds
    · exact hh'
  have hback : ∀ w' j : Nat, HoldsAt s w' j →
      HoldsW (s.workers.set w (Phase.awaitMetric i)) w' j := by
    intro w' j hh
    by_cases hne : w' = w
    · subst hne
      have := holds_of_phase hw hh
      simp only [Phase.holdsIdx] at this
      obtain rfl := Option.some.inj this
      exact (holdsW_set hwlen _ w' i).mpr (Or.inl ⟨rfl, rfl⟩)
    · exact (holdsW_set hwlen _ w' j).mpr (Or.inr ⟨hne, hh⟩)
  refine
    { wlen := ?_
      olen := hinv.olen
      slen := hinv.slen
      tlen := hinv.tlen
      cle := hinv.cle
      claimsEq := hinv.claimsEq
      finCur := ?_
      holdsLt := fun w' j hh => hinv.holdsLt w' j (hto w' j hh)
      uniq := fun w' w'' j hh' hh'' =>
        hinv.uniq w' w'' j (hto w' j hh') (hto w'' j hh'')
      holdsUnwritten := fun w' j hh => hinv.holdsUnwritten w' j (hto w' j hh)
      writtenVal := hinv.writtenVal
      unwrittenHolder := ?_
      highUnwritten := hinv.highUnwritten
      scoresSync := hinv.scoresSync
      trajsSync := hinv.trajsSync }
  · show (s.workers.set w (Phase.awaitMetric i)).length = C
    rw [List.length_set]
    exact hinv.wlen
  · rintro ⟨w', hw'⟩
    by_cases he : w' = w
    · subst he
      rw [List.getElem?_set_eq_of_lt _ hwlen] at hw'
      exact absurd (Option.some.inj hw') (by simp)
    · rw [List.getElem?_set_ne (fun h => he h.symm)] at hw'
      exact hinv.finCur ⟨w', hw'⟩
  · intro j hj hun
    obtain ⟨w', hold'⟩ := hinv.unwrittenHolder j hj hun
    exact ⟨w', hback w' j hold'⟩

/-- Preservation of the invariant under a metric resolving: the worker
writes outputs[i], scores[i] (and trajectories[i] when capturing) and
returns to the loop head. -/
theorem inv_metricDone {env : EvalEnv Ex Out TE} {C : Nat}
    {s : EvalState Ex Out TE} {w i : Nat} (hinv : Inv env C s)
    (hw : s.workers[w]? = some (Phase.awaitMetric i)) :
    Inv env C
      { s with
          workers := s.workers.set w Phase.loopHead
          outputs := s.outputs.set i (some (outAt env i))
          scores := s.scores.set i (some (scoreAt env i))
          trajs :=
            if env.capture then s.trajs.set i (some (trajAt env i))
            else s.trajs } := by
  have hwlen : w < s.workers.length := lt_length_of_some hw
  have hwholds : HoldsAt s w i := ⟨Phase.awaitMetric i, hw, rfl⟩
  have hic : i < s.cursor := hinv.holdsLt w i hwholds
  have hiout : s.outputs[i]? = some none := hinv.holdsUnwritten w i hwholds
  have hiolen : i < s.outputs.length := lt_length_of_some hiout
  have hilen : i < env.batch.length := hinv.olen ▸ hiolen
  have hislen : i < s.scores.length := by rw [hinv.slen]; exact hilen
  have hitlen : i < s.trajs.length := by rw [hinv.tlen]; exact hilen
  have hto : ∀ w' j : Nat, HoldsW (s.workers.set w Phase.loopHead) w' j →
      w' ≠ w ∧ HoldsAt s w' j := by
    intro w' j hh
    rcases (holdsW_set hwlen _ w' j).mp hh with ⟨_, hpi⟩ | ⟨hne, hh'⟩
    · simp [Phase.holdsIdx] at hpi
    · exact ⟨hne, hh'⟩
  have hnoti : ∀ w' j : Nat, HoldsW (s.workers.set w Phase.loopHead) w' j →
      j ≠ i := by
    intro w' j hh
    obtain ⟨hne, hold'⟩ := hto w' j hh
    rintro rfl
    exact hne (hinv.uniq w' w j hold' hwholds)
  refine
    { wlen := ?_
      olen := ?_
      slen := ?_
      tlen := ?_
      cle := hinv.cle
      claimsEq := hinv.claimsEq
      finCur := ?_
      holdsLt := fun w' j hh => hinv.holdsLt w' j (hto w' j hh).2
      uniq := fun w' w'' j hh' hh'' =>
        hinv.uniq w' w'' j (hto w' j hh').2 (hto w'' j hh'').2
      holdsUnwritten := ?_
      writtenVal := ?_
      unwrittenHolder := ?_
      highUnwritten := ?_
      scoresSync := ?_
      trajsSync := ?_ }
  · show (s.workers.set w Phase.loopHead).length = C
    rw [List.length_set]
    exact hinv.wlen
  · show (s.outputs.set i (some (outAt env i))).length = env.batch.length
    rw [List.length_set]
    exact hinv.olen
  · show (s.scores.set i (some (scoreAt env i))).length = env.batch.length
    rw [List.length_set]
    exact hinv.slen
  · show (if env.capture then s.trajs.set i (some (trajAt env i))
      else s.trajs).length = env.batch.length
    by_cases hcap : env.capture
    · rw [if_pos hcap, List.length_set]
      exact hinv.tlen
    · rw [if_neg hcap]
      exact hinv.tlen
  · rintro ⟨w', hw'⟩
    by_cases he : w' = w
    · subst he
      rw [List.getElem?_set_eq_of_lt _ hwlen] at hw'
      exact absurd (Option.some.inj hw') (by simp)
    · rw [List.getElem?_set_ne (fun h => he h.symm)] at hw'
      exact hinv.finCur ⟨w', hw'⟩
  · intro w' j hh
    have hji : j ≠ i := hnoti w' j hh
    show (s.outputs.set i (some (outAt env i)))[j]? = some none
    rw [List.getElem?_set_ne (fun h => hji h.symm)]
    exact hinv.holdsUnwritten w' j (hto w' j hh).2
  · intro j v hv
    by_cases hji : j = i
    · subst hji
      rw [show ((({ s with
            workers := s.workers.set w Phase.loopHead
            outputs := s.outputs.set j (some (outAt env j))
            scores := s.scores.set j (some (scoreAt env j))
            trajs :=
              if env.capture then s.trajs.set j (some (trajAt env j))
              else s.trajs } : EvalState Ex Out TE).outputs)[j]?) =
          (s.outputs.set j (some (outAt env j)))[j]? from rfl,
        List.getElem?_set_eq_of_lt _ hiolen] at hv
      obtain h := Option.some.inj hv
      exact (Option.some.inj h).symm
    · rw [show ((({ s with
            workers := s.workers.set w Phase.loopHead
            outputs := s.outputs.set i (some (outAt env i))
            scores := s.scores.set i (some (scoreAt env i))
            trajs :=
              if env.capture then s.trajs.set i (some (trajAt env i))
              else s.trajs } : EvalState Ex Out TE).outputs)[j]?) =
          (s.outputs.set i (some (outAt env i)))[j]? from rfl,
        List.getElem?_set_ne (fun h => hji h.symm)] at hv
      exact hinv.writtenVal j v hv
  · intro j hj hun
    by_cases hji : j = i
    · subst hji
      rw [show ((({ s with
            workers := s.workers.set w Phase.loopHead
            outputs := s.outputs.set j (some (outAt env j))
            scores := s.scores.set j (some (scoreAt env j))
            trajs :=
              if env.capture then s.trajs.set j (some (trajAt env j))
              else s.trajs } : EvalState Ex Out TE).outputs)[j]?) =
          (s.outputs.set j (some (outAt env j)))[j]? from rfl,
        List.getElem?_set_eq_of_lt _ hiolen] at hun
      exact absurd (Option.some.inj hun) (by simp)
    · rw [show ((({ s with
            workers := s.workers.set w Phase.loopHead
            outputs := s.outputs.set i (some (outAt env i))
            scores := s.scores.set i (some (scoreAt env i))
            trajs :=
              if env.capture then s.trajs.set i (some (trajAt env i))
              else s.trajs } : EvalState Ex Out TE).outputs)[j]?) =
          (s.outputs.set i (some (outAt env i)))[j]? from rfl,
        List.getElem?_set_ne (fun h => hji h.symm)] at hun
      obtain ⟨w', hold'⟩ := hinv.unwrittenHolder j hj hun
      have hne : w' ≠ w := by
        rintro rfl
        have := holds_of_phase hw hold'
        simp only [Phase.holdsIdx] at this
        exact hji (Option.some.inj this).symm
      exact ⟨w', (holdsW_set hwlen _ w' j).mpr (Or.inr ⟨hne, hold'⟩)⟩
  · intro j hj hjlen
    have hji : j ≠ i := by
      rintro rfl
      exact Nat.lt_irrefl j (Nat.lt_of_lt_of_le hic hj)
    show (s.outputs.set i (some (outAt env i)))[j]? = some none
    rw [List.getElem?_set_ne (fun h => hji h.symm)]
    exact hinv.highUnwritten j hj hjlen
  · intro j
    show (s.scores.set i (some (scoreAt env i)))[j]? =
      ((s.outputs.set i (some (outAt env i)))[j]?).map
        (Option.map (fun _ => scoreAt env j))
    by_cases hji : j = i
    · subst hji
      rw [List.getElem?_set_eq_of_lt _ hislen,
        List.getElem?_set_eq_of_lt _ hiolen]
      rfl
    · rw [List.getElem?_set_ne (fun h => hji h.symm),
        List.getElem?_set_ne (fun h => hji h.symm)]
      exact hinv.scoresSync j
  · intro j
    show (if env.capture then s.trajs.set i (some (trajAt env i))
        else s.trajs)[j]? =
      ((s.outputs.set i (some (outAt env i)))[j]?).map
        (fun (o : Option (Prediction Out)) =>
          o.bind (fun _ => if env.capture then some (trajAt env j) else none))
    by_cases hcap : env.capture
    · rw [if_pos hcap]
      by_cases hji : j = i
      · subst hji
        rw [List.getElem?_set_eq_of_lt _ hitlen,
          List.getElem?_set_eq_of_lt _ hiolen]
        simp [hcap]
      · rw [List.getElem?_set_ne (fun h => hji h.symm),
          List.getElem?_set_ne (fun h => hji h.symm)]
        exact hinv.trajsSync j
    · rw [if_neg hcap]
      by_cases hji : j = i
      · subst hji
        rw [List.getElem?_set_eq_of_lt _ hiolen, hinv.trajsSync j, hiout]
        simp [hcap]
      · rw [List.getElem?_set_ne (fun h => hji h.symm)]
        exact hinv.trajsSync j

/-- The invariant is preserved by every step of every worker. -/
theorem inv_step {env : EvalEnv Ex Out TE} {C : Nat}
    {s t : EvalState Ex Out TE} (hinv : Inv env C s) (hstep : Step env s t) :
    Inv env C t := by
  cases hstep with
  | claim w hw hlt => exact inv_claim hinv hw hlt
  | exit w hw hge => exact inv_exit hinv hw hge
  | runDone w i hw => exact inv_runDone hinv hw
  | metricDone w i hw => exact inv_metricDone hinv hw

/-- Every reachable state of the pool satisfies the invariant. -/
theorem reachable_inv {env : EvalEnv Ex Out TE} {C : Nat}
    {s : EvalState Ex Out TE} (h : Reachable env C s) : Inv env C s := by
  unfold Reachable at h
  induction h with
  | refl => exact inv_init env C
  | tail _ hstep ih => exact inv_step ih hstep

/-- In a completed pool state (all workers returned, and either at least
one worker existed or the batch was empty), the cursor is exhausted and
every array holds exactly the values determined by the batch indices: no
hole is left, no slot deviates, the claim log is exactly the list of batch
indices. -/
theorem final_state_char {env : EvalEnv Ex Out TE} {C : Nat}
    {s : EvalState Ex Out TE} (hinv : Inv env C s) (hdone : AllDone C s)
    (hC : 1 ≤ C ∨ env.batch.length = 0) :
    s.cursor = env.batch.length ∧
    s.outputs =
      (List.range env.batch.length).map (fun i => some (outAt env i)) ∧
    s.scores =
      (List.range env.batch.length).map (fun i => some (scoreAt env i)) ∧
    s.trajs =
      (List.range env.batch.length).map
        (fun i => if env.capture then some (trajAt env i) else none) ∧
    s.claims.map Prod.snd = List.range env.batch.length := by
  have hnohold : ∀ w i : Nat, ¬ HoldsAt s w i := by
    rintro w i ⟨p, hp, hpi⟩
    have hwlt : w < s.workers.length := lt_length_of_some hp
    have hfin := hdone w (hinv.wlen ▸ hwlt)
    rw [hfin] at hp
    obtain rfl := Option.some.inj hp
    simp [Phase.holdsIdx] at hpi
  have hcur : s.cursor = env.batch.length := by
    rcases hC with hC | hn
    · exact Nat.le_antisymm hinv.cle (hinv.finCur ⟨0, hdone 0 hC⟩)
    · rw [hn]
      exact Nat.le_antisymm (hn ▸ hinv.cle) (Nat.zero_le _)
  have houts : ∀ j : Nat, j < env.batch.length →
      s.outputs[j]? = some (some (outAt env j)) := by
    intro j hj
    have hjo : j < s.outputs.length := by rw [hinv.olen]; exact hj
    cases ho : s.outputs[j]? with
    | none =>
      rw [List.getElem?_eq_none_iff] at ho
      omega
    | some o =>
      cases o with
      | none =>
        obtain ⟨w, hold⟩ := hinv.unwrittenHolder j (hcur ▸ hj) ho
        exact absurd hold (hnohold w j)
      | some v =>
        rw [hinv.writtenVal j v ho]
  refine ⟨hcur, ?_, ?_, ?_, hcur ▸ hinv.claimsEq⟩
  · refine List.ext_getElem? fun j => ?_
    rw [List.getElem?_map]
    by_cases hj : j < env.batch.length
    · rw [houts j hj, List.getElem?_range hj]
      rfl
    · rw [List.getElem?_eq_none_iff.mpr (by rw [hinv.olen]; omega),
        List.getElem?_eq_none_iff.mpr (by rw [List.length_range]; omega)]
      rfl
  · refine List.ext_getElem? fun j => ?_
    rw [List.getElem?_map, hinv.scoresSync j]
    by_cases hj : j < env.batch.length
    · rw [houts j hj, List.getElem?_range hj]
      rfl
    · rw [List.getElem?_eq_none_iff.mpr (by rw [hinv.olen]; omega),
        List.getElem?_eq_none_iff.mpr (by rw [List.length_range]; omega)]
      rfl
  · refine List.ext_getElem? fun j => ?_
    rw [List.getElem?_map, hinv.trajsSync j]
    by_cases hj : j < env.batch.length
    · rw [houts j hj, List.getElem?_range hj]
      rfl
    · rw [List.getElem?_eq_none_iff.mpr (by rw [hinv.olen]; omega),
        List.getElem?_eq_none_iff.mpr (by rw [List.length_range]; omega)]
      rfl

/-! ## Candidate application: characterization -/

theorem setInstr_keys (ps : List (String × String)) (n v : String) :
    (setInstr ps n v).map Prod.fst = ps.map Prod.fst := by
  simp only [setInstr, List.map_map]
  congr 1
  funext p
  by_cases h : p.1 = n <;> simp [h, Function.comp]

theorem setInstr_cons (p : String × String) (ps : List (String × String))
    (k v : String) :
    setInstr (p :: ps) k v =
      (if p.1 = k then (p.1, v) else p) :: setInstr ps k v := rfl

theorem lookupInstr_cons (p : String × String) (ps : List (String × String))
    (n : String) :
    lookupInstr (p :: ps) n =
      if p.1 = n then some p.2 else lookupInstr ps n := by
  by_cases h : p.1 = n
  · simp [lookupInstr, List.find?_cons_of_pos, h]
  · simp [lookupInstr, List.find?_cons_of_neg, h]

theorem lookupInstr_pair_cons (a b : String) (ps : List (String × String))
    (n : String) :
    lookupInstr ((a, b) :: ps) n =
      if a = n then some b else lookupInstr ps n := by
  rw [lookupInstr_cons]

theorem lookupInstr_setInstr (ps : List (String × String)) (k v n : String) :
    lookupInstr (setInstr ps k v) n =
      if n = k then (lookupInstr ps n).map (fun _ => v)
      else lookupInstr ps n := by
  induction ps with
  | nil => by_cases h : n = k <;> simp [lookupInstr, setInstr, h]
  | cons p ps ih =>
    by_cases h1 : p.1 = k <;> by_cases h3 : p.1 = n <;> by_cases h2 : n = k <;>
      simp_all [setInstr_cons, lookupInstr_cons, lookupInstr_pair_cons, ih]

theorem isPred_eq_isSome_lookup (st : ModuleState) (n : String) :
    isPred st n = (lookupInstr st.preds n).isSome := by
  show st.preds.any (fun p => decide (p.1 = n)) = (lookupInstr st.preds n).isSome
  induction st.preds with
  | nil => simp [lookupInstr]
  | cons p ps ih =>
    rw [List.any_cons, lookupInstr_cons]
    by_cases h : p.1 = n <;> simp [h, ih]

theorem applyCandidateEvaluate_eq_foldl (st : ModuleState)
    (cand : List (String × String)) :
    applyCandidateEvaluate st cand = cand.foldl evalCandStep st := rfl

theorem applyCandidateFinalize_eq_foldl (st : ModuleState)
    (cand : List (String × String)) :
    applyCandidateFinalize st cand = cand.foldl finalCandStep st := rfl

theorem evalCandStep_keys (st : ModuleState) (kv : String × String) :
    (evalCandStep st kv).preds.map Prod.fst = st.preds.map Prod.fst := by
  unfold evalCandStep
  by_cases h1 : isPred st kv.1
  · rw [if_pos h1]
    exact setInstr_keys st.preds kv.1 kv.2
  · rw [if_neg h1]
    by_cases h2 : kv.1 = "_predictors"
    · rw [if_pos h2]
    · rw [if_neg h2]
      by_cases h3 : kv.1 = "__proto__"
      · rw [if_pos h3]
      · rw [if_neg h3]

theorem finalCandStep_keys (st : ModuleState) (kv : String × String) :
    (finalCandStep st kv).preds.map Prod.fst = st.preds.map Prod.fst := by
  unfold finalCandStep
  by_cases h1 : isPred st kv.1
  · rw [if_pos h1]
    exact setInstr_keys st.preds kv.1 kv.2
  · rw [if_neg h1]
    by_cases h2 : kv.1 ∈ objectProtoKeys
    · rw [if_pos h2]
    · rw [if_neg h2]

theorem isPred_of_keys {st st' : ModuleState}
    (h : st'.preds.map Prod.fst = st.preds.map Prod.fst) (n : String) :
    isPred st' n = isPred st n := by
  have h1 : ∀ ps : List (String × String),
      (ps.any fun p => decide (p.1 = n)) =
        (ps.map Prod.fst).any (fun k => decide (k = n)) := by
    intro ps
    induction ps with
    | nil => rfl
    | cons p ps ih => simp [List.any_cons, ih]
  show (st'.preds.any fun p => decide (p.1 = n)) =
    (st.preds.any fun p => decide (p.1 = n))
  rw [h1, h1, h]

theorem applyCandidateEvaluate_keys (st : ModuleState)
    (cand : List (String × String)) :
    (applyCandidateEvaluate st cand).preds.map Prod.fst =
      st.preds.map Prod.fst := by
  rw [applyCandidateEvaluate_eq_foldl]
  induction cand generalizing st with
  | nil => rfl
  | cons kv c ih =>
    rw [List.foldl_cons, ih, evalCandStep_keys]

theorem applyCandidateFinalize_keys (st : ModuleState)
    (cand : List (String × String)) :
    (applyCandidateFinalize st cand).preds.map Prod.fst =
      st.preds.map Prod.fst := by
  rw [applyCandidateFinalize_eq_foldl]
  induction cand generalizing st with
  | nil => rfl
  | cons kv c ih =>
    rw [List.foldl_cons, ih, finalCandStep_keys]

theorem evalCandStep_lookup_other (st : ModuleState) (kv : String × String)
    (n : String) (hne : kv.1 ≠ n) :
    lookupInstr (evalCandStep st kv).preds n = lookupInstr st.preds n := by
  unfold evalCandStep
  by_cases h1 : isPred st kv.1
  · rw [if_pos h1]
    show lookupInstr (setInstr st.preds kv.1 kv.2) n = lookupInstr st.preds n
    rw [lookupInstr_setInstr, if_neg (fun h => hne h.symm)]
  · rw [if_neg h1]
    by_cases h2 : kv.1 = "_predictors"
    · rw [if_pos h2]
    · rw [if_neg h2]
      by_cases h3 : kv.1 = "__proto__"
      · rw [if_pos h3]
      · rw [if_neg h3]

theorem finalCandStep_lookup_other (st : ModuleState) (kv : String × String)
    (n : String) (hne : kv.1 ≠ n) :
    lookupInstr (finalCandStep st kv).preds n = lookupInstr st.preds n := by
  unfold finalCandStep
  by_cases h1 : isPred st kv.1
  · rw [if_pos h1]
    show lookupInstr (setInstr st.preds kv.1 kv.2) n = lookupInstr st.preds n
    rw [lookupInstr_setInstr, if_neg (fun h => hne h.symm)]
  · rw [if_neg h1]
    by_cases h2 : kv.1 ∈ objectProtoKeys
    · rw [if_pos h2]
    · rw [if_neg h2]

theorem applyCandidateEvaluate_lookup_untouched (st : ModuleState)
    (cand : List (String × String)) (n : String)
    (hn : ∀ kv ∈ cand, kv.1 ≠ n) :
    lookupInstr (applyCandidateEvaluate st cand).preds n =
      lookupInstr st.preds n := by
  rw [applyCandidateEvaluate_eq_foldl]
  induction cand generalizing st with
  | nil => rfl
  | cons kv c ih =>
    rw [List.foldl_cons, ih _ (fun p hp => hn p (List.mem_cons_of_mem kv hp)),
      evalCandStep_lookup_other _ _ _ (hn kv (List.mem_cons_self kv c))]

theorem applyCandidateFinalize_lookup_untouched (st : ModuleState)
    (cand : List (String × String)) (n : String)
    (hn : ∀ kv ∈ cand, kv.1 ≠ n) :
    lookupInstr (applyCandidateFinalize st cand).preds n =
      lookupInstr st.preds n := by
  rw [applyCandidateFinalize_eq_foldl]
  induction cand generalizing st with
  | nil => rfl
  | cons kv c ih =>
    rw [List.foldl_cons, ih _ (fun p hp => hn p (List.mem_cons_of_mem kv hp)),
      finalCandStep_lookup_other _ _ _ (hn kv (List.mem_cons_self kv c))]

theorem evalCandStep_isPred (st : ModuleState) (kv : String × String)
    (n : String) : isPred (evalCandStep st kv) n = isPred st n :=
  isPred_of_keys (evalCandStep_keys st kv) n

theorem finalCandStep_isPred (st : ModuleState) (kv : String × String)
    (n : String) : isPred (finalCandStep st kv) n = isPred st n :=
  isPred_of_keys (finalCandStep_keys st kv) n

theorem lookup_none_of_not_isPred (st : ModuleState) (n : String)
    (h : isPred st n = false) : lookupInstr st.preds n = none := by
  rw [isPred_eq_isSome_lookup] at h
  cases hv : lookupInstr st.preds n with
  | none => rfl
  | some v => rw [hv] at h; simp at h

theorem applyCandidateEvaluate_lookup_updated (st : ModuleState)
    (cand : List (String × String)) (name prompt : String)
    (hnd : (cand.map Prod.fst).Nodup)
    (hmem : (name, prompt) ∈ cand) (hp : isPred st name = true) :
    lookupInstr (applyCandidateEvaluate st cand).preds name = some prompt := by
  rw [applyCandidateEvaluate_eq_foldl]
  induction cand generalizing st with
  | nil => cases hmem
  | cons kv c ih =>
    rw [List.map_cons, List.nodup_cons] at hnd
    rw [List.foldl_cons]
    rcases List.mem_cons.mp hmem with rfl | hmem'
    · have hnotin : ∀ p ∈ c, p.1 ≠ name := by
        intro p hpmem he
        have hx : p.1 ∈ c.map Prod.fst := List.mem_map_of_mem Prod.fst hpmem
        rw [he] at hx
        exact hnd.1 hx
      have hstep :
          lookupInstr (evalCandStep st (name, prompt)).preds name =
            some prompt := by
        simp only [evalCandStep]
        rw [if_pos hp]
        show lookupInstr (setInstr st.preds name prompt) name = some prompt
        rw [lookupInstr_setInstr, if_pos rfl]
        rw [isPred_eq_isSome_lookup] at hp
        obtain ⟨v, hv⟩ := Option.isSome_iff_exists.mp hp
        rw [hv]
        rfl
      rw [← applyCandidateEvaluate_eq_foldl,
        applyCandidateEvaluate_lookup_untouched _ c name hnotin, hstep]
    · exact ih _ hnd.2 hmem' (by rw [evalCandStep_isPred]; exact hp)

theorem applyCandidateFinalize_lookup_updated (st : ModuleState)
    (cand : List (String × String)) (name prompt : String)
    (hnd : (cand.map Prod.fst).Nodup)
    (hmem : (name, prompt) ∈ cand) (hp : isPred st name = true) :
    lookupInstr (applyCandidateFinalize st cand).preds name = some prompt := by
  rw [applyCandidateFinalize_eq_foldl]
  induction cand generalizing st with
  | nil => cases hmem
  | cons kv c ih =>
    rw [List.map_cons, List.nodup_cons] at hnd
    rw [List.foldl_cons]
    rcases List.mem_cons.mp hmem with rfl | hmem'
    · have hnotin : ∀ p ∈ c, p.1 ≠ name := by
        intro p hpmem he
        have hx : p.1 ∈ c.map Prod.fst := List.mem_map_of_mem Prod.fst hpmem
        rw [he] at hx
        exact hnd.1 hx
      have hstep :
          lookupInstr (finalCandStep st (name, prompt)).preds name =
            some prompt := by
        simp only [finalCandStep]
        rw [if_pos hp]
        show lookupInstr (setInstr st.preds name prompt) name = some prompt
        rw [lookupInstr_setInstr, if_pos rfl]
        rw [isPred_eq_isSome_lookup] at hp
        obtain ⟨v, hv⟩ := Option.isSome_iff_exists.mp hp
        rw [hv]
        rfl
      rw [← applyCandidateFinalize_eq_foldl,
        applyCandidateFinalize_lookup_untouched _ c name hnotin, hstep]
    · exact ih _ hnd.2 hmem' (by rw [finalCandStep_isPred]; exact hp)

theorem applyCandidateFinalize_recInstr (st : ModuleState)
    (cand : List (String × String)) :
    (applyCandidateFinalize st cand).predsRecInstr = st.predsRecInstr := by
  rw [applyCandidateFinalize_eq_foldl]
  induction cand generalizing st with
  | nil => rfl
  | cons kv c ih =>
    rw [List.foldl_cons, ih]
    unfold finalCandStep
    by_cases h1 : isPred st kv.1
    · simp [h1]
    · by_cases h2 : kv.1 ∈ objectProtoKeys <;> simp [h1, h2]

theorem applyCandidateEvaluate_recInstr_untouched (st : ModuleState)
    (cand : List (String × String))
    (hno : ∀ kv ∈ cand, kv.1 ≠ "_predictors") :
    (applyCandidateEvaluate st cand).predsRecInstr = st.predsRecInstr := by
  rw [applyCandidateEvaluate_eq_foldl]
  induction cand generalizing st with
  | nil => rfl
  | cons kv c ih =>
    rw [List.foldl_cons, ih _ (fun p hp => hno p (List.mem_cons_of_mem kv hp))]
    unfold evalCandStep
    by_cases h1 : isPred st kv.1
    · simp [h1]
    · rw [if_neg h1, if_neg (hno kv (List.mem_cons_self kv c))]
      by_cases h3 : kv.1 = "__proto__"
      · rw [if_pos h3]
      · rw [if_neg h3]

theorem applyCandidateEvaluate_recInstr_rogue (st : ModuleState)
    (cand : List (String × String)) (v : String)
    (hnd : (cand.map Prod.fst).Nodup)
    (hmem : ("_predictors", v) ∈ cand)
    (hnp : isPred st "_predictors" = false) :
    (applyCandidateEvaluate st cand).predsRecInstr = some v := by
  rw [applyCandidateEvaluate_eq_foldl]
  induction cand generalizing st with
  | nil => cases hmem
  | cons kv c ih =>
    rw [List.map_cons, List.nodup_cons] at hnd
    rw [List.foldl_cons]
    rcases List.mem_cons.mp hmem with rfl | hmem'
    · have hnotin : ∀ p ∈ c, p.1 ≠ "_predictors" := by
        intro p hpmem he
        have hx : p.1 ∈ c.map Prod.fst := List.mem_map_of_mem Prod.fst hpmem
        rw [he] at hx
        exact hnd.1 hx
      have hstep : (evalCandStep st ("_predictors", v)).predsRecInstr =
          some v := by
        simp only [evalCandStep]
        rw [if_neg (by rw [hnp]; simp)]
        simp
      rw [← applyCandidateEvaluate_eq_foldl,
        applyCandidateEvaluate_recInstr_untouched _ c hnotin, hstep]
    · exact ih _ hnd.2 hmem' (by rw [evalCandStep_isPred]; exact hnp)

/-! ## The evaluation protocol server (server.ts) -/

/-- The metric function bound on the Teleprompt instance.  The metric
endpoint passes five arguments (gold, prediction, trace, pred_name,
pred_trace); the worker loop of Module.evaluate passes the first three,
leaving the last two undefined. -/
def SessionMetric (Ex Out TE : Type) : Type :=
  Ex → Prediction Out → Option (List TE) → Option String →
    Option (List TE) → Except JsError MetricVal

/-- One entry of a metric endpoint request body. -/
structure MetricEntry (Ex Out TE : Type) where
  gold : Ex
  prediction : Prediction Out
  trace : Option (List TE)
  pred_name : Option String
  pred_trace : Option (List TE)

/-- The body of an evaluate endpoint request. -/
structure EvaluateRequest (Ex : Type) where
  batch : List Ex
  candidate : List (String × String)
  capture_traces : Bool

/-- A request to one of the three endpoints of createServer. -/
inductive Request (Ex Out TE R : Type) where
  | evaluateReq (r : EvaluateRequest Ex)
  | metricReq (entries : List (MetricEntry Ex Out TE))
  | finalizeReq (p : FinalizePayload R)

/-- A response from the server: a success body, or a server-level error
with a status code and an error-string body. -/
inductive Response (Ex Out TE : Type) where
  | evalResp (b : EvaluationBatch Ex Out TE)
  | metricResp (scores : List ScoreFB)
  | finalizeResp (status : String)
  | serverError (status : Nat) (error : String)

/-- The session state the server closes over: the metric and dataset bound
by compile (absent before), the numThreads option, the teleprompt one-shot
signal, and the student module. -/
structure SessionState (Ex Out TE R : Type) where
  metric : Option (SessionMetric Ex Out TE)
  getInputs : Option (Ex → Ex)
  numThreads : Nat
  tp : TelepromptState R
  module : ModuleDef Ex Out TE

variable {R : Type}

/-- The arrays Module.evaluate returns, as established by
final_state_char: whatever the concurrency, every slot is filled with the
value determined by its batch index. -/
def evaluateFn (env : EvalEnv Ex Out TE) : EvaluationBatch Ex Out TE :=
  { outputs := (List.range env.batch.length).map (fun i => some (outAt env i))
    scores := (List.range env.batch.length).map (fun i => some (scoreAt env i))
    trajectories :=
      if env.capture then
        (List.range env.batch.length).map (fun i => some (trajAt env i))
      else [] }

/-- The metric endpoint body: map the metric over the entries, normalizing
each result.  A throw from the metric is not caught by this handler: it
fails the request (the framework turns it into an error response), not the
server. -/
def metricEndpointScores (m : SessionMetric Ex Out TE)
    (entries : List (MetricEntry Ex Out TE)) : Except JsError (List ScoreFB) :=
  entries.mapM
    (fun e =>
      (m e.gold e.prediction e.trace e.pred_name e.pred_trace).map
        normalizeMetric)

/-- One request handled by the server of createServer: the evaluate and
metric endpoints answer a 500 error-string response when no metric is
configured; evaluate otherwise applies the candidate and runs the pool;
finalize always fires the teleprompt signal and answers ok. -/
def serve (sess : SessionState Ex Out TE R) :
    Request Ex Out TE R → SessionState Ex Out TE R × Response Ex Out TE
  | Request.evaluateReq r =>
    match sess.metric with
    | none =>
      (sess,
        Response.serverError 500 "Metric not configured on Teleprompt instance")
    | some m =>
      let env := evaluateEnv sess.module r.batch r.candidate r.capture_traces
        (fun ex p tr => m ex p (some tr) none none) sess.getInputs
      ({ sess with
          module :=
            { sess.module with
                state := applyCandidateEvaluate sess.module.state r.candidate } },
        Response.evalResp (evaluateFn env))
  | Request.metricReq entries =>
    match sess.metric with
    | none =>
      (sess,
        Response.serverError 500 "Metric not configured on Teleprompt instance")
    | some m =>
      match metricEndpointScores m entries with
      | Except.ok scores => (sess, Response.metricResp scores)
      | Except.error e =>
        (sess,
          Response.serverError 500 (if e.message = "" then e.str else e.message))
  | Request.finalizeReq p =>
    ({ sess with tp := telepromptFinalize sess.tp p },
      Response.finalizeResp "ok")

/-- The server loop: handle a list of requests in order, threading the
session state. -/
def serveAll (sess : SessionState Ex Out TE R) :
    List (Request Ex Out TE R) →
      SessionState Ex Out TE R × List (Response Ex Out TE)
  | [] => (sess, [])
  | r :: rest =>
    let stepped := serve sess r
    let next := serveAll stepped.1 rest
    (next.1, stepped.2 :: next.2)

/-! ## Claim theorems -/

theorem promise_some_after_finalize (cs : CompileState R)
    (p : FinalizePayload R) (h : cs.tp.armed = true) :
    (compileStep cs (CompileEvent.finalizeCall p)).tp.promise.isSome := by
  simp only [compileStep, h, if_true]
  cases hp : cs.tp.promise with
  | some q => simp [hp]
  | none => simp [hp]

/-- C2: a compile call settles in exactly one of two ways, decided by
whichever signal arrives first: the outcome of the whole event sequence is
pending when no deciding signal arrived, resolution with the student
updated by the best candidate when the first deciding signal is a finalize
call, and rejection with a process-failure error when it is a nonzero exit
or a spawn error.  Moreover a second finalize call after a first one is a
no-op on the entire compile state, so compile resolves using only the
first payload. -/
theorem C2_compile_single_resolution :
    (∀ (m0 : ModuleState) (es : List (CompileEvent R)),
      (compileRun m0 es).outcome = outcomeOfDecider m0 (es.find? isDecider)) ∧
    (∀ (m0 : ModuleState) (es1 es2 : List (CompileEvent R))
        (p1 p2 : FinalizePayload R),
      compileRun m0
          (es1 ++ CompileEvent.finalizeCall p1 ::
            CompileEvent.finalizeCall p2 :: es2) =
        compileRun m0 (es1 ++ CompileEvent.finalizeCall p1 :: es2)) := by
  constructor
  · intro m0 es
    exact compile_char_aux es m0 { armed := true, promise := none } rfl rfl
  · intro m0 es1 es2 p1 p2
    unfold compileRun
    rw [List.foldl_append, List.foldl_append, List.foldl_cons,
      List.foldl_cons, List.foldl_cons]
    congr 1
    apply finalize_noop_of_resolved
    apply promise_some_after_finalize
    exact compile_armed_invariant es1 (compileInit m0)

/-- C10: a finalize call when no compile is pending (the one-shot
completion signal is not armed) is a harmless no-op: the session state is
unchanged and the endpoint still answers status ok. -/
theorem C10_finalize_unarmed_noop (sess : SessionState Ex Out TE R)
    (p : FinalizePayload R) (h : sess.tp.armed = false) :
    serve sess (Request.finalizeReq p) = (sess, Response.finalizeResp "ok") := by
  simp only [serve, telepromptFinalize, h]
  rfl

/-- C8: when no scoring function is configured on the session, the
evaluate and metric endpoints answer a 500 response whose body is an error
string, the session state is untouched, and the server goes on serving the
remaining requests exactly as it would have without the failed one. -/
theorem C8_unconfigured_metric_error (sess : SessionState Ex Out TE R)
    (h : sess.metric = none) (r : EvaluateRequest Ex)
    (entries : List (MetricEntry Ex Out TE))
    (rest : List (Request Ex Out TE R)) :
    serve sess (Request.evaluateReq r) =
      (sess,
        Response.serverError 500
          "Metric not configured on Teleprompt instance") ∧
    serve sess (Request.metricReq entries) =
      (sess,
        Response.serverError 500
          "Metric not configured on Teleprompt instance") ∧
    serveAll sess (Request.evaluateReq r :: rest) =
      ((serveAll sess rest).1,
        Response.serverError 500 "Metric not configured on Teleprompt instance"
          :: (serveAll sess rest).2) ∧
    serveAll sess (Request.metricReq entries :: rest) =
      ((serveAll sess rest).1,
        Response.serverError 500 "Metric not configured on Teleprompt instance"
          :: (serveAll sess rest).2) := by
  have h1 : serve sess (Request.evaluateReq r) =
      (sess,
        Response.serverError 500
          "Metric not configured on Teleprompt instance") := by
    simp [serve, h]
  have h2 : serve sess (Request.metricReq entries) =
      (sess,
        Response.serverError 500
          "Metric not configured on Teleprompt instance") := by
    simp [serve, h]
  refine ⟨h1, h2, ?_, ?_⟩
  · show (let stepped := serve sess (Request.evaluateReq r)
          let next := serveAll stepped.1 rest
          (next.1, stepped.2 :: next.2)) = _
    rw [h1]
  · show (let stepped := serve sess (Request.metricReq entries)
          let next := serveAll stepped.1 rest
          (next.1, stepped.2 :: next.2)) = _
    rw [h2]

/-- C6: Module.run lets no exception of the forward logic propagate.  The
trace accumulated so far is returned in every case (partial traces on
failure included); a successful forward value becomes a success
prediction; a thrown error becomes a failure prediction whose errorType is
the most specific kind available (the thrown name when present, else
"Error") and whose message is the thrown message (else its string
rendering); a missing forward function is caught like any other throw,
with an empty trace. -/
theorem C6_run_never_propagates {In : Type} (fwd : Option (ForwardFn In Out TE))
    (inputs : In) :
    (∀ f, fwd = some f →
      (moduleRun fwd inputs).trace = (f inputs []).2) ∧
    (∀ f out tr, fwd = some f → f inputs [] = (Except.ok out, tr) →
      (moduleRun fwd inputs).prediction =
        { output := out, errorType := none, errorMessage := none
          errorTraceback := none }) ∧
    (∀ f e tr, fwd = some f → f inputs [] = (Except.error e, tr) →
      (moduleRun fwd inputs).prediction.output = none ∧
      (moduleRun fwd inputs).prediction.errorType =
        some (if e.name = "" then "Error" else e.name) ∧
      (moduleRun fwd inputs).prediction.errorMessage =
        some (if e.message = "" then e.str else e.message) ∧
      (moduleRun fwd inputs).trace = tr) ∧
    (fwd = none →
      (moduleRun fwd inputs).prediction.output = none ∧
      (moduleRun fwd inputs).prediction.errorType = some "Error" ∧
      (moduleRun fwd inputs).prediction.errorMessage =
        some "Forward function is not set" ∧
      (moduleRun fwd inputs).trace = []) := by
  refine ⟨?_, ?_, ?_, ?_⟩
  · rintro f rfl
    cases hfe : f inputs [] with
    | mk r tr => cases r <;> simp [moduleRun, hfe]
  · rintro f out tr rfl hfe
    simp [moduleRun, hfe]
  · rintro f e tr rfl hfe
    simp [moduleRun, hfe, mkFailure]
  · rintro rfl
    simp [moduleRun, mkFailure, forwardNotSetError]

/-- A forward function that resolves with null/undefined (an async
function with no return value): the success value is null. -/
def nullFwd : ForwardFn Nat Nat Unit := fun _ tr => (Except.ok none, tr)

/-- C9 counterexample: a forward that resolves with null/undefined makes
Module.run produce a prediction whose four fields are all null -- neither
the success side nor the failure side is populated, so the claim that
exactly one side is always populated is false at this input. -/
theorem C9_counterexample :
    (moduleRun (some nullFwd) 0).prediction.output = none ∧
    (moduleRun (some nullFwd) 0).prediction.errorType = none ∧
    (moduleRun (some nullFwd) 0).prediction.errorMessage = none ∧
    (moduleRun (some nullFwd) 0).prediction.errorTraceback = none :=
  ⟨rfl, rfl, rfl, rfl⟩

/-- C9 amended: a prediction Module.run produces never has both sides
populated, and always has exactly one side populated -- the failure side
(error kind and message set, output null) on any throw, the success side
(output non-null, all error fields null) on a success with a non-null
value -- except in the single case where the forward logic resolves with
null/undefined: then neither side is populated (all four fields null). -/
theorem C9_prediction_sides {In : Type}
    (fwd : Option (ForwardFn In Out TE)) (inputs : In) :
    ¬ (((moduleRun fwd inputs).prediction.output.isSome ∧
        (moduleRun fwd inputs).prediction.errorType = none ∧
        (moduleRun fwd inputs).prediction.errorMessage = none ∧
        (moduleRun fwd inputs).prediction.errorTraceback = none) ∧
      ((moduleRun fwd inputs).prediction.output = none ∧
        (moduleRun fwd inputs).prediction.errorType.isSome ∧
        (moduleRun fwd inputs).prediction.errorMessage.isSome)) ∧
    (((moduleRun fwd inputs).prediction.output = none ∧
        (moduleRun fwd inputs).prediction.errorType.isSome ∧
        (moduleRun fwd inputs).prediction.errorMessage.isSome) ∨
      ((moduleRun fwd inputs).prediction.output.isSome ∧
        (moduleRun fwd inputs).prediction.errorType = none ∧
        (moduleRun fwd inputs).prediction.errorMessage = none ∧
        (moduleRun fwd inputs).prediction.errorTraceback = none) ∨
      (((moduleRun fwd inputs).prediction.output = none ∧
          (moduleRun fwd inputs).prediction.errorType = none ∧
          (moduleRun fwd inputs).prediction.errorMessage = none ∧
          (moduleRun fwd inputs).prediction.errorTraceback = none) ∧
        ∃ f tr, fwd = some f ∧ f inputs [] = (Except.ok none, tr))) := by
  cases fwd with
  | none =>
    refine ⟨?_, Or.inl ?_⟩ <;> simp [moduleRun, mkFailure, forwardNotSetError]
  | some f =>
    cases hfe : f inputs [] with
    | mk r tr =>
      cases r with
      | ok o =>
        cases o with
        | none =>
          refine ⟨?_, Or.inr (Or.inr ⟨?_, f, tr, rfl, hfe⟩)⟩ <;>
            simp [moduleRun, hfe]
        | some v =>
          refine ⟨?_, Or.inr (Or.inl ?_)⟩ <;> simp [moduleRun, hfe]
      | error e =>
        refine ⟨?_, Or.inl ?_⟩ <;> simp [moduleRun, hfe, mkFailure]

theorem evalCandStep_objectProto (st : ModuleState) (kv : String × String) :
    (evalCandStep st kv).objectProtoInstr = st.objectProtoInstr := by
  unfold evalCandStep
  by_cases h1 : isPred st kv.1
  · rw [if_pos h1]
  · rw [if_neg h1]
    by_cases h2 : kv.1 = "_predictors"
    · rw [if_pos h2]
    · rw [if_neg h2]
      by_cases h3 : kv.1 = "__proto__"
      · rw [if_pos h3]
      · rw [if_neg h3]

theorem applyCandidateEvaluate_objectProto (st : ModuleState)
    (cand : List (String × String)) :
    (applyCandidateEvaluate st cand).objectProtoInstr =
      st.objectProtoInstr := by
  rw [applyCandidateEvaluate_eq_foldl]
  induction cand generalizing st with
  | nil => rfl
  | cons kv c ih => rw [List.foldl_cons, ih, evalCandStep_objectProto]

theorem finalCandStep_moduleProto (st : ModuleState) (kv : String × String) :
    (finalCandStep st kv).moduleProtoInstr = st.moduleProtoInstr := by
  unfold finalCandStep
  by_cases h1 : isPred st kv.1
  · rw [if_pos h1]
  · rw [if_neg h1]
    by_cases h2 : kv.1 ∈ objectProtoKeys
    · rw [if_pos h2]
    · rw [if_neg h2]

theorem applyCandidateFinalize_moduleProto (st : ModuleState)
    (cand : List (String × String)) :
    (applyCandidateFinalize st cand).moduleProtoInstr =
      st.moduleProtoInstr := by
  rw [applyCandidateFinalize_eq_foldl]
  induction cand generalizing st with
  | nil => rfl
  | cons kv c ih => rw [List.foldl_cons, ih, finalCandStep_moduleProto]

theorem evalCandStep_moduleProto_other (st : ModuleState)
    (kv : String × String) (h : kv.1 ≠ "__proto__") :
    (evalCandStep st kv).moduleProtoInstr = st.moduleProtoInstr := by
  unfold evalCandStep
  by_cases h1 : isPred st kv.1
  · rw [if_pos h1]
  · rw [if_neg h1]
    by_cases h2 : kv.1 = "_predictors"
    · rw [if_pos h2]
    · rw [if_neg h2, if_neg h]

theorem applyCandidateEvaluate_moduleProto_untouched (st : ModuleState)
    (cand : List (String × String))
    (hno : ∀ kv ∈ cand, kv.1 ≠ "__proto__") :
    (applyCandidateEvaluate st cand).moduleProtoInstr =
      st.moduleProtoInstr := by
  rw [applyCandidateEvaluate_eq_foldl]
  induction cand generalizing st with
  | nil => rfl
  | cons kv c ih =>
    rw [List.foldl_cons, ih _ (fun p hp => hno p (List.mem_cons_of_mem kv hp)),
      evalCandStep_moduleProto_other _ _ (hno kv (List.mem_cons_self kv c))]

theorem applyCandidateEvaluate_moduleProto_rogue (st : ModuleState)
    (cand : List (String × String)) (v : String)
    (hnd : (cand.map Prod.fst).Nodup)
    (hmem : ("__proto__", v) ∈ cand)
    (hnp : isPred st "__proto__" = false) :
    (applyCandidateEvaluate st cand).moduleProtoInstr = some v := by
  rw [applyCandidateEvaluate_eq_foldl]
  induction cand generalizing st with
  | nil => cases hmem
  | cons kv c ih =>
    rw [List.map_cons, List.nodup_cons] at hnd
    rw [List.foldl_cons]
    rcases List.mem_cons.mp hmem with rfl | hmem'
    · have hnotin : ∀ p ∈ c, p.1 ≠ "__proto__" := by
        intro p hpmem he
        have hx : p.1 ∈ c.map Prod.fst := List.mem_map_of_mem Prod.fst hpmem
        rw [he] at hx
        exact hnd.1 hx
      have hstep : (evalCandStep st ("__proto__", v)).moduleProtoInstr =
          some v := by
        simp only [evalCandStep]
        rw [if_neg (by rw [hnp]; simp)]
        simp
      rw [← applyCandidateEvaluate_eq_foldl,
        applyCandidateEvaluate_moduleProto_untouched _ c hnotin, hstep]
    · exact ih _ hnd.2 hmem' (by rw [evalCandStep_isPred]; exact hnp)

theorem finalCandStep_objectProto_other (st : ModuleState)
    (kv : String × String) (k : String) (h : kv.1 ≠ k) :
    (finalCandStep st kv).objectProtoInstr k = st.objectProtoInstr k := by
  unfold finalCandStep
  by_cases h1 : isPred st kv.1
  · rw [if_pos h1]
  · rw [if_neg h1]
    by_cases h2 : kv.1 ∈ objectProtoKeys
    · rw [if_pos h2]
      show (if k = kv.1 then some kv.2 else st.objectProtoInstr k) =
        st.objectProtoInstr k
      rw [if_neg (fun he => h he.symm)]
    · rw [if_neg h2]

theorem applyCandidateFinalize_objectProto_untouched (st : ModuleState)
    (cand : List (String × String)) (k : String)
    (hno : ∀ kv ∈ cand, kv.1 ≠ k) :
    (applyCandidateFinalize st cand).objectProtoInstr k =
      st.objectProtoInstr k := by
  rw [applyCandidateFinalize_eq_foldl]
  induction cand generalizing st with
  | nil => rfl
  | cons kv c ih =>
    rw [List.foldl_cons, ih _ (fun p hp => hno p (List.mem_cons_of_mem kv hp)),
      finalCandStep_objectProto_other _ _ _ (hno kv (List.mem_cons_self kv c))]

theorem applyCandidateFinalize_objectProto_written (st : ModuleState)
    (cand : List (String × String)) (k v : String)
    (hnd : (cand.map Prod.fst).Nodup)
    (hmem : (k, v) ∈ cand) (hnp : isPred st k = false)
    (hk : k ∈ objectProtoKeys) :
    (applyCandidateFinalize st cand).objectProtoInstr k = some v := by
  rw [applyCandidateFinalize_eq_foldl]
  induction cand generalizing st with
  | nil => cases hmem
  | cons kv c ih =>
    rw [List.map_cons, List.nodup_cons] at hnd
    rw [List.foldl_cons]
    rcases List.mem_cons.mp hmem with rfl | hmem'
    · have hnotin : ∀ p ∈ c, p.1 ≠ k := by
        intro p hpmem he
        have hx : p.1 ∈ c.map Prod.fst := List.mem_map_of_mem Prod.fst hpmem
        rw [he] at hx
        exact hnd.1 hx
      have hstep : (finalCandStep st (k, v)).objectProtoInstr k = some v := by
        simp only [finalCandStep]
        rw [if_neg (by rw [hnp]; simp), if_pos hk]
        simp
      rw [← applyCandidateFinalize_eq_foldl,
        applyCandidateFinalize_objectProto_untouched _ c k hnotin, hstep]
    · exact ih _ hnd.2 hmem' (by rw [finalCandStep_isPred]; exact hnp)

/-- A module with a single predictor named judge, used as the concrete
input of the candidate-application counterexample. -/
def judgeModule : ModuleState :=
  { preds := [("judge", "seed")]
    predsRecInstr := none
    moduleProtoInstr := none
    objectProtoInstr := fun _ => none }

/-- C4 counterexample: a candidate entry named "_predictors" matches no
predictor of the module, yet applying it on the evaluate path changes the
module state (it writes an instructions property onto the internal
predictor record), so such entries are not ignored and other state does
not stay unchanged. -/
theorem C4_counterexample :
    isPred judgeModule "_predictors" = false ∧
    applyCandidateEvaluate judgeModule [("_predictors", "X")] ≠ judgeModule ∧
    (applyCandidateEvaluate judgeModule [("_predictors", "X")]).predsRecInstr =
      some "X" := by
  refine ⟨rfl, ?_, rfl⟩
  intro h
  have h2 := congrArg ModuleState.predsRecInstr h
  rw [show (applyCandidateEvaluate judgeModule
      [("_predictors", "X")]).predsRecInstr = some "X" from rfl] at h2
  simp [judgeModule] at h2

/-- C4 amended: applying a candidate with distinct keys, none of them
named "instructions" (see the section comment on ModuleState for why that
key is excluded), updates in place the instructions of every predictor
named by the candidate, on both the evaluate path and the finalize path;
it adds or removes no predictor and leaves every untouched predictor
unchanged.  A non-predictor entry is ignored only when its dynamic lookup
hits nothing (or a function, on the evaluate path): on the evaluate path
an entry named "_predictors" writes its text onto the internal predictor
record and one named "__proto__" writes it onto Module.prototype; on the
finalize path, whose guard is bare truthiness, an entry naming an
inherited Object.prototype member writes its text onto that shared
inherited object.  Apart from these writes each path leaves the other
stray-write state unchanged. -/
theorem C4_candidate_application (st : ModuleState)
    (cand : List (String × String)) (hnd : (cand.map Prod.fst).Nodup)
    (_hins : ∀ v : String, ("instructions", v) ∉ cand) :
    ((applyCandidateEvaluate st cand).preds.map Prod.fst =
        st.preds.map Prod.fst ∧
      (applyCandidateFinalize st cand).preds.map Prod.fst =
        st.preds.map Prod.fst) ∧
    (∀ name prompt, (name, prompt) ∈ cand → isPred st name = true →
      lookupInstr (applyCandidateEvaluate st cand).preds name = some prompt ∧
      lookupInstr (applyCandidateFinalize st cand).preds name = some prompt) ∧
    (∀ name, (∀ kv ∈ cand, kv.1 ≠ name) →
      lookupInstr (applyCandidateEvaluate st cand).preds name =
        lookupInstr st.preds name ∧
      lookupInstr (applyCandidateFinalize st cand).preds name =
        lookupInstr st.preds name) ∧
    (∀ name, isPred st name = false →
      lookupInstr (applyCandidateEvaluate st cand).preds name = none ∧
      lookupInstr (applyCandidateFinalize st cand).preds name = none) ∧
    ((∀ kv ∈ cand, kv.1 ≠ "_predictors") →
      (applyCandidateEvaluate st cand).predsRecInstr = st.predsRecInstr) ∧
    (∀ v, ("_predictors", v) ∈ cand → isPred st "_predictors" = false →
      (applyCandidateEvaluate st cand).predsRecInstr = some v) ∧
    ((∀ kv ∈ cand, kv.1 ≠ "__proto__") →
      (applyCandidateEvaluate st cand).moduleProtoInstr =
        st.moduleProtoInstr) ∧
    (∀ v, ("__proto__", v) ∈ cand → isPred st "__proto__" = false →
      (applyCandidateEvaluate st cand).moduleProtoInstr = some v) ∧
    (applyCandidateEvaluate st cand).objectProtoInstr =
      st.objectProtoInstr ∧
    (applyCandidateFinalize st cand).predsRecInstr = st.predsRecInstr ∧
    (applyCandidateFinalize st cand).moduleProtoInstr =
      st.moduleProtoInstr ∧
    (∀ k, (∀ kv ∈ cand, kv.1 ≠ k) →
      (applyCandidateFinalize st cand).objectProtoInstr k =
        st.objectProtoInstr k) ∧
    (∀ k v, (k, v) ∈ cand → isPred st k = false → k ∈ objectProtoKeys →
      (applyCandidateFinalize st cand).objectProtoInstr k = some v) := by
  refine ⟨⟨applyCandidateEvaluate_keys st cand,
      applyCandidateFinalize_keys st cand⟩, ?_, ?_, ?_, ?_, ?_, ?_, ?_,
      applyCandidateEvaluate_objectProto st cand,
      applyCandidateFinalize_recInstr st cand,
      applyCandidateFinalize_moduleProto st cand, ?_, ?_⟩
  · intro name prompt hmem hp
    exact ⟨applyCandidateEvaluate_lookup_updated st cand name prompt hnd hmem hp,
      applyCandidateFinalize_lookup_updated st cand name prompt hnd hmem hp⟩
  · intro name hno
    exact ⟨applyCandidateEvaluate_lookup_untouched st cand name hno,
      applyCandidateFinalize_lookup_untouched st cand name hno⟩
  · intro name hnp
    constructor
    · refine lookup_none_of_not_isPred
        (applyCandidateEvaluate st cand) name ?_
      rw [isPred_of_keys (applyCandidateEvaluate_keys st cand) name]
      exact hnp
    · refine lookup_none_of_not_isPred
        (applyCandidateFinalize st cand) name ?_
      rw [isPred_of_keys (applyCandidateFinalize_keys st cand) name]
      exact hnp
  · exact applyCandidateEvaluate_recInstr_untouched st cand
  · intro v hmem hnp
    exact applyCandidateEvaluate_recInstr_rogue st cand v hnd hmem hnp
  · exact applyCandidateEvaluate_moduleProto_untouched st cand
  · intro v hmem hnp
    exact applyCandidateEvaluate_moduleProto_rogue st cand v hnd hmem hnp
  · intro k hno
    exact applyCandidateFinalize_objectProto_untouched st cand k hno
  · intro k v hmem hnp hk
    exact applyCandidateFinalize_objectProto_written st cand k v hnd hmem
      hnp hk

omit [Inhabited Ex] in
theorem evaluateEnv_batch (M : ModuleDef Ex Out TE) (batch : List Ex)
    (candidate : List (String × String)) (capture : Bool)
    (metric : MetricFn Ex Out TE) (getInputs : Option (Ex → Ex)) :
    (evaluateEnv M batch candidate capture metric getInputs).batch = batch :=
  rfl

omit [Inhabited Ex] in
theorem evaluateEnv_capture (M : ModuleDef Ex Out TE) (batch : List Ex)
    (candidate : List (String × String)) (capture : Bool)
    (metric : MetricFn Ex Out TE) (getInputs : Option (Ex → Ex)) :
    (evaluateEnv M batch candidate capture metric getInputs).capture =
      capture := rfl

/-- C1: for every batch, candidate and concurrency of at least one worker,
a completed Module.evaluate call yields outputs and scores arrays of
exactly the batch length with no hole left, and a trajectories array that
is empty when capture_traces is false and of batch length (hole-free) when
it is true. -/
theorem C1_evaluate_report_shape (M : ModuleDef Ex Out TE) (batch : List Ex)
    (candidate : List (String × String)) (capture : Bool)
    (metric : MetricFn Ex Out TE) (getInputs : Option (Ex → Ex))
    (C : Nat) (hC : 1 ≤ C) (s : EvalState Ex Out TE)
    (hreach :
      Reachable (evaluateEnv M batch candidate capture metric getInputs) C s)
    (hdone : AllDone C s) :
    (mkResult (evaluateEnv M batch candidate capture metric getInputs)
        s).outputs.length = batch.length ∧
    (mkResult (evaluateEnv M batch candidate capture metric getInputs)
        s).scores.length = batch.length ∧
    (∀ o ∈ (mkResult (evaluateEnv M batch candidate capture metric getInputs)
        s).outputs, o.isSome) ∧
    (∀ o ∈ (mkResult (evaluateEnv M batch candidate capture metric getInputs)
        s).scores, o.isSome) ∧
    (capture = false →
      (mkResult (evaluateEnv M batch candidate capture metric getInputs)
        s).trajectories = []) ∧
    (capture = true →
      (mkResult (evaluateEnv M batch candidate capture metric getInputs)
          s).trajectories.length = batch.length ∧
      ∀ t ∈ (mkResult (evaluateEnv M batch candidate capture metric getInputs)
        s).trajectories, t.isSome) := by
  obtain ⟨hcur, hout, hsc, htr, hcl⟩ :=
    final_state_char (reachable_inv hreach) hdone (Or.inl hC)
  refine ⟨?_, ?_, ?_, ?_, ?_, ?_⟩
  · show s.outputs.length = batch.length
    rw [hout, List.length_map, List.length_range, evaluateEnv_batch]
  · show s.scores.length = batch.length
    rw [hsc, List.length_map, List.length_range, evaluateEnv_batch]
  · show ∀ o ∈ s.outputs, o.isSome
    intro o ho
    rw [hout] at ho
    obtain ⟨i, _, rfl⟩ := List.mem_map.mp ho
    rfl
  · show ∀ o ∈ s.scores, o.isSome
    intro o ho
    rw [hsc] at ho
    obtain ⟨i, _, rfl⟩ := List.mem_map.mp ho
    rfl
  · intro hcap
    show (if (evaluateEnv M batch candidate capture metric getInputs).capture
      then s.trajs else []) = []
    rw [evaluateEnv_capture, hcap, if_neg (by simp)]
  · intro hcap
    have hres :
        (mkResult (evaluateEnv M batch candidate capture metric getInputs)
          s).trajectories = s.trajs := by
      show (if (evaluateEnv M batch candidate capture metric getInputs).capture
        then s.trajs else []) = s.trajs
      rw [evaluateEnv_capture, hcap, if_pos rfl]
    rw [hres, htr]
    constructor
    · rw [List.length_map, List.length_range, evaluateEnv_batch]
    · intro t ht
      obtain ⟨i, _, rfl⟩ := List.mem_map.mp ht
      show ((if (evaluateEnv M batch candidate capture metric
          getInputs).capture then some (trajAt _ i) else none)).isSome = true
      rw [evaluateEnv_capture, hcap, if_pos rfl]
      rfl

/-- C3: in the worker pool of Module.evaluate, the ghost claim log never
repeats a batch index and no two workers ever hold the same index at the
same time; once the pool has completed (with at least one worker), the log
contains each batch index exactly once and every index has been processed
(its output slot is written).  No index is skipped and none is claimed
twice. -/
theorem C3_indices_claimed_once (M : ModuleDef Ex Out TE) (batch : List Ex)
    (candidate : List (String × String)) (capture : Bool)
    (metric : MetricFn Ex Out TE) (getInputs : Option (Ex → Ex))
    (C : Nat) (s : EvalState Ex Out TE)
    (hreach :
      Reachable (evaluateEnv M batch candidate capture metric getInputs) C s) :
    (s.claims.map Prod.snd).Nodup ∧
    (∀ w w' i : Nat, HoldsAt s w i → HoldsAt s w' i → w = w') ∧
    (AllDone C s → 1 ≤ C →
      s.claims.map Prod.snd = List.range batch.length ∧
      ∀ i, i < batch.length →
        (s.claims.map Prod.snd).count i = 1 ∧
        ∃ v, s.outputs[i]? = some (some v)) := by
  have hinv := reachable_inv hreach
  refine ⟨?_, hinv.uniq, ?_⟩
  · rw [hinv.claimsEq]
    exact List.nodup_range _
  · intro hdone hC
    obtain ⟨hcur, hout, hsc, htr, hcl⟩ :=
      final_state_char hinv hdone (Or.inl hC)
    rw [evaluateEnv_batch] at hcl
    refine ⟨hcl, ?_⟩
    intro i hi
    constructor
    · rw [hcl]
      exact List.count_eq_one_of_mem (List.nodup_range _)
        (List.mem_range.mpr hi)
    · refine ⟨outAt (evaluateEnv M batch candidate capture metric getInputs) i,
        ?_⟩
      rw [hout, List.getElem?_map,
        List.getElem?_range (by rw [evaluateEnv_batch]; exact hi)]
      rfl

/-- C5: if the metric throws for exactly one index j of the batch and
succeeds everywhere else, a completed Module.evaluate call still produces
a full scores array: slot j holds 0 (recorded with feedback
"Metric evaluation failed." in the trajectory when capturing), every other
slot holds its normally computed score, and the batch is never aborted. -/
theorem C5_metric_failure_containment (M : ModuleDef Ex Out TE)
    (batch : List Ex) (candidate : List (String × String)) (capture : Bool)
    (metric : MetricFn Ex Out TE) (getInputs : Option (Ex → Ex))
    (C : Nat) (hC : 1 ≤ C) (j : Nat) (err : JsError) (v : Nat → MetricVal)
    (hjlt : j < batch.length)
    (hthrow :
      metricOutcome (evaluateEnv M batch candidate capture metric getInputs)
        j = Except.error err)
    (hok : ∀ i, i < batch.length → i ≠ j →
      metricOutcome (evaluateEnv M batch candidate capture metric getInputs)
        i = Except.ok (v i))
    (s : EvalState Ex Out TE)
    (hreach :
      Reachable (evaluateEnv M batch candidate capture metric getInputs) C s)
    (hdone : AllDone C s) :
    s.scores.length = batch.length ∧
    s.scores[j]? = some (some 0) ∧
    (∀ i, i < batch.length → i ≠ j →
      s.scores[i]? = some (some (normalizeMetric (v i)).score)) ∧
    (capture = true →
      s.trajs[j]? = some (some
        (trajAt (evaluateEnv M batch candidate capture metric getInputs) j)) ∧
      (trajAt (evaluateEnv M batch candidate capture metric getInputs)
          j).score =
        { score := 0, feedback := "Metric evaluation failed." }) := by
  obtain ⟨hcur, hout, hsc, htr, hcl⟩ :=
    final_state_char (reachable_inv hreach) hdone (Or.inl hC)
  rw [evaluateEnv_batch] at hout hsc htr
  refine ⟨?_, ?_, ?_, ?_⟩
  · rw [hsc, List.length_map, List.length_range]
  · rw [hsc, List.getElem?_map, List.getElem?_range hjlt]
    show some (some
      (scoreAt (evaluateEnv M batch candidate capture metric getInputs) j)) =
      some (some 0)
    simp [scoreAt, scoreFBAt, hthrow]
  · intro i hi hne
    rw [hsc, List.getElem?_map, List.getElem?_range hi]
    show some (some
      (scoreAt (evaluateEnv M batch candidate capture metric getInputs) i)) =
      some (some (normalizeMetric (v i)).score)
    simp [scoreAt, scoreFBAt, hok i hi hne]
  · intro hcap
    constructor
    · rw [htr, List.getElem?_map, List.getElem?_range hjlt]
      show some (if (evaluateEnv M batch candidate capture metric
          getInputs).capture then some (trajAt _ j) else none) = _
      rw [evaluateEnv_capture, hcap, if_pos rfl]
    · simp [trajAt, scoreFBAt, hthrow]

/-- C7: for the same batch, candidate and metric, a completed
Module.evaluate run with one worker and a completed run with one worker
per batch element produce identical outputs and scores arrays: the result
is deterministic by batch index and independent of the number of workers
and their interleaving. -/
theorem C7_result_concurrency_independent (M : ModuleDef Ex Out TE)
    (batch : List Ex) (candidate : List (String × String)) (capture : Bool)
    (metric : MetricFn Ex Out TE) (getInputs : Option (Ex → Ex))
    (s t : EvalState Ex Out TE)
    (h1 :
      Reachable (evaluateEnv M batch candidate capture metric getInputs) 1 s)
    (hd1 : AllDone 1 s)
    (h2 : Reachable (evaluateEnv M batch candidate capture metric getInputs)
      batch.length t)
    (hd2 : AllDone batch.length t) :
    s.outputs = t.outputs ∧ s.scores = t.scores := by
  obtain ⟨_, hout1, hsc1, _, _⟩ :=
    final_state_char (reachable_inv h1) hd1 (Or.inl (Nat.le_refl 1))
  have hside : 1 ≤ batch.length ∨
      (evaluateEnv M batch candidate capture metric getInputs).batch.length =
        0 := by
    rcases Nat.eq_zero_or_pos batch.length with h0 | hpos
    · right
      rw [evaluateEnv_batch]
      exact h0
    · left
      exact hpos
  obtain ⟨_, hout2, hsc2, _, _⟩ :=
    final_state_char (reachable_inv h2) hd2 hside
  exact ⟨hout1.trans hout2.symm, hsc1.trans hsc2.symm⟩

/-! ## Concrete witnesses -/

/-- A concrete module for witnesses: one predictor named judge and a
forward function that succeeds with input + 1 and touches no trace. -/
def witModule : ModuleDef Nat Nat Unit :=
  { state :=
      { preds := [("judge", "seed")]
        predsRecInstr := none
        moduleProtoInstr := none
        objectProtoInstr := fun _ => none }
    forward := some (fun _ i tr => (Except.ok (some (i + 1)), tr)) }

/-- A concrete thrown metric error. -/
def witErr : JsError :=
  { name := "MetricError", message := "boom", stack := ""
    str := "MetricError: boom" }

/-- A concrete metric: throws on the example 10, returns the bare number 1
otherwise. -/
def witMetric : MetricFn Nat Nat Unit := fun ex _ _ =>
  if ex = 10 then Except.error witErr else Except.ok (MetricVal.num 1)

/-- The concrete evaluate environment of the witnesses: batch [10, 20],
candidate {judge: tuned}, no trace capture. -/
def witEnv : EvalEnv Nat Nat Unit :=
  evaluateEnv witModule [10, 20] [("judge", "tuned")] false witMetric none

/-- The pool state a one-worker run of witEnv completes in. -/
def witRunA : EvalState Nat Nat Unit :=
  { cursor := 2
    workers := [Phase.finished]
    outputs := [some (outAt witEnv 0), some (outAt witEnv 1)]
    scores := [some (scoreAt witEnv 0), some (scoreAt witEnv 1)]
    trajs := [none, none]
    claims := [(0, 0), (0, 1)] }

theorem witRunA_reachable : Reachable witEnv 1 witRunA := by
  have h0 : Reachable witEnv 1 (initState witEnv 1) :=
    Relation.ReflTransGen.refl
  have h1 : Reachable witEnv 1
      { cursor := 1
        workers := [Phase.awaitRun 0]
        outputs := [none, none]
        scores := [none, none]
        trajs := [none, none]
        claims := [(0, 0)] } :=
    Relation.ReflTransGen.tail h0
      (Step.claim (initState witEnv 1) 0 rfl (by decide))
  have h2 : Reachable witEnv 1
      { cursor := 1
        workers := [Phase.awaitMetric 0]
        outputs := [none, none]
        scores := [none, none]
        trajs := [none, none]
        claims := [(0, 0)] } :=
    Relation.ReflTransGen.tail h1 (Step.runDone _ 0 0 rfl)
  have h3 : Reachable witEnv 1
      { cursor := 1
        workers := [Phase.loopHead]
        outputs := [some (outAt witEnv 0), none]
        scores := [some (scoreAt witEnv 0), none]
        trajs := [none, none]
        claims := [(0, 0)] } :=
    Relation.ReflTransGen.tail h2 (Step.metricDone _ 0 0 rfl)
  have h4 : Reachable witEnv 1
      { cursor := 2
        workers := [Phase.awaitRun 1]
        outputs := [some (outAt witEnv 0), none]
        scores := [some (scoreAt witEnv 0), none]
        trajs := [none, none]
        claims := [(0, 0), (0, 1)] } :=
    Relation.ReflTransGen.tail h3 (Step.claim _ 0 rfl (by decide))
  have h5 : Reachable witEnv 1
      { cursor := 2
        workers := [Phase.awaitMetric 1]
        outputs := [some (outAt witEnv 0), none]
        scores := [some (scoreAt witEnv 0), none]
        trajs := [none, none]
        claims := [(0, 0), (0, 1)] } :=
    Relation.ReflTransGen.tail h4 (Step.runDone _ 0 1 rfl)
  have h6 : Reachable witEnv 1
      { cursor := 2
        workers := [Phase.loopHead]
        outputs := [some (outAt witEnv 0), some (outAt witEnv 1)]
        scores := [some (scoreAt witEnv 0), some (scoreAt witEnv 1)]
        trajs := [none, none]
        claims := [(0, 0), (0, 1)] } :=
    Relation.ReflTransGen.tail h5 (Step.metricDone _ 0 1 rfl)
  exact Relation.ReflTransGen.tail h6 (Step.exit _ 0 rfl (by decide))

theorem witRunA_allDone : AllDone 1 witRunA := by
  intro w hw
  cases w with
  | zero => rfl
  | succ n => exact absurd hw (by omega)

/-- The pool state a two-worker run of witEnv completes in: worker 0 takes
index 0, worker 1 takes index 1. -/
def witRunB : EvalState Nat Nat Unit :=
  { cursor := 2
    workers := [Phase.finished, Phase.finished]
    outputs := [some (outAt witEnv 0), some (outAt witEnv 1)]
    scores := [some (scoreAt witEnv 0), some (scoreAt witEnv 1)]
    trajs := [none, none]
    claims := [(0, 0), (1, 1)] }

theorem witRunB_reachable : Reachable witEnv 2 witRunB := by
  have h0 : Reachable witEnv 2 (initState witEnv 2) :=
    Relation.ReflTransGen.refl
  have h1 : Reachable witEnv 2
      { cursor := 1
        workers := [Phase.awaitRun 0, Phase.loopHead]
        outputs := [none, none]
        scores := [none, none]
        trajs := [none, none]
        claims := [(0, 0)] } :=
    Relation.ReflTransGen.tail h0
      (Step.claim (initState witEnv 2) 0 rfl (by decide))
  have h2 : Reachable witEnv 2
      { cursor := 2
        workers := [Phase.awaitRun 0, Phase.awaitRun 1]
        outputs := [none, none]
        scores := [none, none]
        trajs := [none, none]
        claims := [(0, 0), (1, 1)] } :=
    Relation.ReflTransGen.tail h1 (Step.claim _ 1 rfl (by decide))
  have h3 : Reachable witEnv 2
      { cursor := 2
        workers := [Phase.awaitMetric 0, Phase.awaitRun 1]
        outputs := [none, none]
        scores := [none, none]
        trajs := [none, none]
        claims := [(0, 0), (1, 1)] } :=
    Relation.ReflTransGen.tail h2 (Step.runDone _ 0 0 rfl)
  have h4 : Reachable witEnv 2
      { cursor := 2
        workers := [Phase.loopHead, Phase.awaitRun 1]
        outputs := [some (outAt witEnv 0), none]
        scores := [some (scoreAt witEnv 0), none]
        trajs := [none, none]
        claims := [(0, 0), (1, 1)] } :=
    Relation.ReflTransGen.tail h3 (Step.metricDone _ 0 0 rfl)
  have h5 : Reachable witEnv 2
      { cursor := 2
        workers := [Phase.finished, Phase.awaitRun 1]
        outputs := [some (outAt witEnv 0), none]
        scores := [some (scoreAt witEnv 0), none]
        trajs := [none, none]
        claims := [(0, 0), (1, 1)] } :=
    Relation.ReflTransGen.tail h4 (Step.exit _ 0 rfl (by decide))
  have h6 : Reachable witEnv 2
      { cursor := 2
        workers := [Phase.finished, Phase.awaitMetric 1]
        outputs := [some (outAt witEnv 0), none]
        scores := [some (scoreAt witEnv 0), none]
        trajs := [none, none]
        claims := [(0, 0), (1, 1)] } :=
    Relation.ReflTransGen.tail h5 (Step.runDone _ 1 1 rfl)
  have h7 : Reachable witEnv 2
      { cursor := 2
        workers := [Phase.finished, Phase.loopHead]
        outputs := [some (outAt witEnv 0), some (outAt witEnv 1)]
        scores := [some (scoreAt witEnv 0), some (scoreAt witEnv 1)]
        trajs := [none, none]
        claims := [(0, 0), (1, 1)] } :=
    Relation.ReflTransGen.tail h6 (Step.metricDone _ 1 1 rfl)
  exact Relation.ReflTransGen.tail h7 (Step.exit _ 1 rfl (by decide))

theorem witRunB_allDone : AllDone 2 witRunB := by
  intro w hw
  cases w with
  | zero => rfl
  | succ n =>
    cases n with
    | zero => rfl
    | succ m => exact absurd hw (by omega)

/-- C1 witness: the one-worker run over the batch [10, 20] without capture
yields two outputs, two scores, and an empty trajectories array. -/
theorem C1_witness :
    (mkResult witEnv witRunA).outputs.length = 2 ∧
    (mkResult witEnv witRunA).scores.length = 2 ∧
    (mkResult witEnv witRunA).trajectories = [] := by
  have h := C1_evaluate_report_shape witModule [10, 20] [("judge", "tuned")]
    false witMetric none 1 (Nat.le_refl 1) witRunA witRunA_reachable
    witRunA_allDone
  exact ⟨h.1, h.2.1, h.2.2.2.2.1 rfl⟩

/-- C3 witness: in the completed one-worker run, the claim log is exactly
[0, 1], each index was claimed once, and both output slots are written. -/
theorem C3_witness :
    witRunA.claims.map Prod.snd = List.range 2 ∧
    (witRunA.claims.map Prod.snd).count 0 = 1 ∧
    (∃ v, witRunA.outputs[0]? = some (some v)) ∧
    (∃ v, witRunA.outputs[1]? = some (some v)) := by
  have h := C3_indices_claimed_once witModule [10, 20] [("judge", "tuned")]
    false witMetric none 1 witRunA witRunA_reachable
  have hfin := h.2.2 witRunA_allDone (Nat.le_refl 1)
  exact ⟨hfin.1, (hfin.2 0 (by decide)).1, (hfin.2 0 (by decide)).2,
    (hfin.2 1 (by decide)).2⟩

/-- C5 witness: the metric throws exactly at index 0 of the two-element
batch, yet the completed run has two scores, 0 at index 0 and the normal
score 1 at index 1. -/
theorem C5_witness :
    witRunA.scores.length = 2 ∧
    witRunA.scores[0]? = some (some 0) ∧
    witRunA.scores[1]? = some (some 1) := by
  have h := C5_metric_failure_containment witModule [10, 20]
    [("judge", "tuned")] false witMetric none 1 (Nat.le_refl 1) 0 witErr
    (fun _ => MetricVal.num 1) (by decide) rfl
    (by
      intro i h1 h2
      cases i with
      | zero => exact absurd rfl h2
      | succ n =>
        cases n with
        | zero => rfl
        | succ m =>
          simp only [List.length_cons, List.length_nil] at h1
          omega)
    witRunA witRunA_reachable witRunA_allDone
  exact ⟨h.1, h.2.1, h.2.2.1 1 (by decide) (by decide)⟩

/-- C7 witness: the completed one-worker run and the completed two-worker
run over the same environment have identical outputs and scores. -/
theorem C7_witness :
    witRunA.outputs = witRunB.outputs ∧ witRunA.scores = witRunB.scores :=
  C7_result_concurrency_independent witModule [10, 20] [("judge", "tuned")]
    false witMetric none witRunA witRunB witRunA_reachable witRunA_allDone
    witRunB_reachable witRunB_allDone

/-- C4 witness: applying the candidate {judge: tuned} updates the judge
predictor on both paths and leaves the internal record untouched on the
finalize path. -/
theorem C4_witness :
    lookupInstr
        (applyCandidateEvaluate judgeModule [("judge", "tuned")]).preds
        "judge" = some "tuned" ∧
    lookupInstr
        (applyCandidateFinalize judgeModule [("judge", "tuned")]).preds
        "judge" = some "tuned" ∧
    (applyCandidateFinalize judgeModule [("judge", "tuned")]).predsRecInstr =
      none := by
  have h := C4_candidate_application judgeModule [("judge", "tuned")]
    (by simp) (by simp)
  have hu := h.2.1 "judge" "tuned" (List.mem_cons_self _ _) rfl
  exact ⟨hu.1, hu.2, h.2.2.2.2.2.2.2.2.2.1⟩

/-- A concrete forward function that pushes one trace entry and then
throws a validation error. -/
def witFwd : ForwardFn Nat Nat Nat := fun _ tr =>
  (Except.error
    { name := "TypeValidationError", message := "bad json", stack := "stk"
      str := "TypeValidationError: bad json" },
    tr ++ [7])

/-- C6 witness: the throwing forward function yields a failure prediction
with the specific thrown kind and message, and the partial trace [7] is
preserved. -/
theorem C6_witness :
    (moduleRun (some witFwd) 3).trace = [7] ∧
    (moduleRun (some witFwd) 3).prediction.errorType =
      some "TypeValidationError" ∧
    (moduleRun (some witFwd) 3).prediction.errorMessage = some "bad json" ∧
    (moduleRun (some witFwd) 3).prediction.output = none := by
  have h := C6_run_never_propagates (some witFwd) 3
  have h3 := h.2.2.1 witFwd
    { name := "TypeValidationError", message := "bad json", stack := "stk"
      str := "TypeValidationError: bad json" }
    [7] rfl rfl
  exact ⟨h3.2.2.2, h3.2.1, h3.2.2.1, h3.1⟩

/-- C9 witness: at the throwing forward function, the produced prediction
has its failure side populated and its success side empty. -/
theorem C9_witness :
    (moduleRun (some witFwd) 3).prediction.output = none ∧
    (moduleRun (some witFwd) 3).prediction.errorType.isSome = true := by
  rcases (C9_prediction_sides (some witFwd) 3).2 with hF | hS | hN
  · exact ⟨hF.1, hF.2.1⟩
  · exact absurd hS.2.1 (by decide)
  · exact absurd hN.1.2.1 (by decide)

/-- A concrete session with no metric configured and the one-shot signal
armed. -/
def witSess : SessionState Nat Nat Unit Unit :=
  { metric := none
    getInputs := none
    numThreads := 4
    tp := { armed := true, promise := none }
    module := witModule }

/-- The concrete evaluate request body of the C8 witness. -/
def witEvalReq : EvaluateRequest Nat :=
  { batch := [1], candidate := [], capture_traces := false }

/-- C8 witness: with no metric configured, both endpoints answer the 500
error-string response and the session state is unchanged. -/
theorem C8_witness :
    serve witSess (Request.evaluateReq witEvalReq) =
      (witSess,
        Response.serverError 500
          "Metric not configured on Teleprompt instance") ∧
    serve witSess (Request.metricReq []) =
      (witSess,
        Response.serverError 500
          "Metric not configured on Teleprompt instance") := by
  have h := C8_unconfigured_metric_error witSess rfl witEvalReq [] []
  exact ⟨h.1, h.2.1⟩

/-- A concrete session whose one-shot completion signal is not armed. -/
def witSessUnarmed : SessionState Nat Nat Unit Unit :=
  { metric := none
    getInputs := none
    numThreads := 4
    tp := { armed := false, promise := none }
    module := witModule }

/-- C10 witness: the finalize endpoint on a session with no pending
compile leaves the session unchanged and still answers ok. -/
theorem C10_witness :
    witSessUnarmed.tp.armed = false ∧
    serve witSessUnarmed
        (Request.finalizeReq { best := [("judge", "x")], results := () }) =
      (witSessUnarmed, Response.finalizeResp "ok") :=
  ⟨rfl,
    C10_finalize_unarmed_noop witSessUnarmed
      { best := [("judge", "x")], results := () } rfl⟩

end Optiglot
